import Mathlib

/-!
# Verification of the fredy identity / similarity / version-linking core

This file is a shallow embedding, in Lean 4, of the property-identity,
fuzzy-matching, similarity-scoring and version-linking code of the fredy
repository (`lib/services/versioning/propertyIdentity.js`,
`lib/services/versioning/fuzzyPropertyMatcher.js`,
`lib/services/versioning/versionDetector.js`,
`lib/services/similarity/addressNormalizer.js`,
`lib/services/similarity/geoMatcher.js`,
`lib/services/similarity/enhancedSimilarityScorer.js`,
`lib/services/storage/listingsStorage.js`, `listingsExtendedStorage.js`),
together with theorems checking the specification claims about that code.

Modelling conventions, used throughout:

* JavaScript numbers are modelled as exact rationals (`ℚ`).  `NaN` and the
  infinities are not values of the model; the two places where the source can
  produce them (relative difference with a zero average, `x/0`) are modelled
  by the explicit zero-average branch, which yields the same observable
  result (`NaN <= c` and `Infinity <= c` are false in JS).
* Transcendental float arithmetic (the Haversine distance) is not
  representable exactly; every definition that consumes a distance takes the
  core Haversine function as an explicit parameter `hav`.
* JS strings are modelled as `String`/`List Char`; only the character classes
  actually exercised by the sources are modelled for `\s` (ASCII whitespace)
  and `\w` (ASCII alphanumerics and underscore).
* A field that may hold `null`/a number/a string is modelled by `FieldVal`;
  a field that may be `undefined`/absent is an `Option`.
* JS truthiness: `none` is falsy, `some ""` (empty string) is falsy,
  `some 0` is falsy for numeric options; helper predicates make this
  explicit at each use site.
* `crypto.createHash('sha256')` is implemented as a full executable SHA-256
  over the UTF-8 bytes of the input, so that identity values are computed
  exactly as the source computes them.
* SQLite state is modelled as in-memory lists (one job; the migration that
  adds the identity/version columns is assumed applied).  Database ids are
  modelled as strings, as in the schema (`id TEXT PRIMARY KEY`).
-/

namespace Fredy

/-! ## JS-semantics helpers -/

namespace Js

/-- ASCII whitespace, the fragment of the JS `\s` class exercised here. -/
def isSpace (c : Char) : Bool :=
  c = ' ' || c = '\t' || c = '\n' || c = '\r'

def isDigit (c : Char) : Bool :=
  '0' ≤ c && c ≤ '9'

def isAlpha (c : Char) : Bool :=
  ('a' ≤ c && c ≤ 'z') || ('A' ≤ c && c ≤ 'Z')

/-- The JS `\w` class: ASCII alphanumerics and underscore. -/
def isWordChar (c : Char) : Bool :=
  isDigit c || isAlpha c || c = '_'

/-- `Math.round`: round half toward positive infinity (`⌊q + 1/2⌋`, written
with the executable `Rat.floor` so that it evaluates in the kernel). -/
def jsRound (q : ℚ) : ℤ :=
  (q + 1 / 2).floor

/-- Lower-casing, covering ASCII letters and the German upper-case umlauts
that the address pipelines can meet. -/
def toLowerChar (c : Char) : Char :=
  if 'A' ≤ c && c ≤ 'Z' then Char.ofNat (c.toNat + 32)
  else if c = 'Ä' then 'ä'
  else if c = 'Ö' then 'ö'
  else if c = 'Ü' then 'ü'
  else c

def toLower (s : List Char) : List Char :=
  s.map toLowerChar

/-- `String.prototype.trim`. -/
def trim (s : List Char) : List Char :=
  (s.dropWhile isSpace).reverse.dropWhile isSpace |>.reverse

/-- Digits of a natural number, most significant first (fuel-based so that it
reduces in the kernel). -/
def natDigitsAux : Nat → Nat → List Char → List Char
  | 0, _, acc => acc
  | _ + 1, n, acc =>
    let d := Char.ofNat (48 + n % 10)
    if n < 10 then d :: acc else natDigitsAux n (n / 10) (d :: acc)

def natToString (n : Nat) : List Char :=
  natDigitsAux (n + 1) n []

def intToString (i : ℤ) : List Char :=
  if i < 0 then '-' :: natToString i.natAbs else natToString i.natAbs

/-- Fraction digits of `num / 10^k` beyond the integer part, zero-padded to
width `k`. -/
def fracDigits (num : Nat) (k : Nat) : List Char :=
  let ds := natToString num
  List.replicate (k - ds.length) '0' ++ ds

/-- Rendering of a JS number whose value is a decimal rational, following the
shortest-decimal printing JS uses on such values (`3` → "3", `3.5` → "3.5").
Non-decimal rationals do not arise from the modelled inputs; they fall back
to a fraction rendering. -/
def numToString (q : ℚ) : List Char :=
  if q.den = 1 then intToString q.num
  else
    let k := (List.range 30).find? (fun k => (q * (10 : ℚ) ^ k).den = 1)
    match k with
    | some k =>
      let scaled := (q * (10 : ℚ) ^ k).num.natAbs
      let sign : List Char := if q < 0 then ['-'] else []
      let intPart := scaled / 10 ^ k
      let rest := scaled % 10 ^ k
      let fd := (fracDigits rest k).reverse.dropWhile (· = '0') |>.reverse
      sign ++ natToString intPart ++ '.' :: fd
    | none => intToString q.num ++ '/' :: natToString q.den

/-- `Number.prototype.toFixed(4)`, for the four-decimal geo cell rendering:
round half toward positive infinity to 4 decimals, always printing 4
fraction digits. -/
def toFixed4 (q : ℚ) : List Char :=
  let n : ℤ := jsRound (q * 10000)
  let sign : List Char := if n < 0 then ['-'] else []
  sign ++ natToString (n.natAbs / 10000) ++ '.' :: fracDigits (n.natAbs % 10000) 4

/-- Splitting on runs of whitespace, as JS `String.split(/\s+/)`: pieces
between maximal whitespace runs, keeping empty pieces at the two ends when
the string starts or ends with whitespace. -/
def splitRunsAux (p : Char → Bool) : Bool → List Char → List Char → List (List Char)
  | _, [], cur => [cur.reverse]
  | false, c :: rest, cur =>
    if p c then cur.reverse :: splitRunsAux p true rest []
    else splitRunsAux p false rest (c :: cur)
  | true, c :: rest, _ =>
    if p c then splitRunsAux p true rest []
    else splitRunsAux p false rest [c]

/-- Splitting on runs of characters matching `p`
(used for `split(/\s+/)` and `split(/[\s,]+/)`); the `Bool` flag of the
worker records being inside a separator run.  Pieces between maximal
separator runs are kept, including empty pieces at the two ends when the
string starts or ends with a separator, as in JS. -/
def splitRuns (p : Char → Bool) (s : List Char) : List (List Char) :=
  splitRunsAux p false s []

/-- Splitting on runs of whitespace, as JS `String.split(/\s+/)`. -/
def splitWs (s : List Char) : List (List Char) :=
  splitRuns isSpace s

def splitCharAux (sep : Char) : List Char → List Char → List (List Char)
  | [], cur => [cur.reverse]
  | c :: rest, cur =>
    if c = sep then cur.reverse :: splitCharAux sep rest []
    else splitCharAux sep rest (c :: cur)

/-- Splitting on a single character, as JS `String.split(' ')`. -/
def splitChar (sep : Char) (s : List Char) : List (List Char) :=
  splitCharAux sep s []

/-- Does `pat` occur as a contiguous substring of `s`
(JS `String.prototype.includes`)? -/
def containsSeq (s pat : List Char) : Bool :=
  match s with
  | [] => pat.isEmpty
  | _ :: rest => pat.isPrefixOf s || containsSeq rest pat

/-- Global literal replacement, as `String.replace(/lit/g, repl)` for a
pattern with no metacharacters: leftmost-first, the replacement is not
rescanned.  `bAfter` additionally requires a JS word boundary after the
match (used for patterns of the shape `lit\b` where `lit` ends in a word
character). -/
def boundaryAfterOk (bAfter : Bool) (s : List Char) : Bool :=
  !bAfter ||
    (match s with
     | [] => true
     | d :: _ => !isWordChar d)

def replaceLitAux (lit repl : List Char) (bAfter : Bool) : Nat → List Char → List Char
  | 0, s => s
  | fuel + 1, s =>
    match s with
    | [] => []
    | c :: rest =>
      if lit.isPrefixOf s && !lit.isEmpty && boundaryAfterOk bAfter (s.drop lit.length) then
        repl ++ replaceLitAux lit repl bAfter fuel (s.drop lit.length)
      else
        c :: replaceLitAux lit repl bAfter fuel rest

def replaceLit (lit repl : List Char) (s : List Char) : List Char :=
  replaceLitAux lit repl false s.length s

def replaceLitWordEnd (lit repl : List Char) (s : List Char) : List Char :=
  replaceLitAux lit repl true s.length s

def collapseWsAux : Bool → List Char → List Char
  | _, [] => []
  | false, c :: rest =>
    if isSpace c then ' ' :: collapseWsAux true rest
    else c :: collapseWsAux false rest
  | true, c :: rest =>
    if isSpace c then collapseWsAux true rest
    else c :: collapseWsAux false rest

/-- Collapse runs of whitespace to a single space
(`String.replace(/\s+/g, ' ')`); the worker flag records being inside a run. -/
def collapseWs (s : List Char) : List Char :=
  collapseWsAux false s

/-- JS `parseFloat` restricted to its decimal forms (no exponents, which do
not occur in the cleaned inputs): skip leading whitespace, optional sign,
then the longest `digits[.digits]` prefix; no digit at all gives `NaN`,
modelled as `none`. -/
def parseFloatCore (s : List Char) : Option ℚ :=
  let s := s.dropWhile isSpace
  let sign : ℚ := if s.headD ' ' = '-' then -1 else 1
  let s := if s.headD ' ' = '-' || s.headD ' ' = '+' then s.tail else s
  let intDs := s.takeWhile isDigit
  let rest := s.drop intDs.length
  let fracDs := if rest.headD ' ' = '.' then rest.tail.takeWhile isDigit else []
  if intDs.isEmpty ∧ fracDs.isEmpty then none
  else
    let iv : ℚ := (intDs.foldl (fun a c => a * 10 + (c.toNat - 48)) 0 : ℕ)
    let fv : ℚ := (fracDs.foldl (fun a c => a * 10 + (c.toNat - 48)) 0 : ℕ)
    some (sign * (iv + fv / (10 : ℚ) ^ fracDs.length))

/-- `String.replace(/\./g, '')`. -/
def removeDots (s : List Char) : List Char :=
  s.filter (· ≠ '.')

/-- `String.replace(',', '.')`: only the first comma is replaced (string
patterns replace a single occurrence in JS). -/
def replaceFirstComma : List Char → List Char
  | [] => []
  | c :: rest => if c = ',' then '.' :: rest else c :: replaceFirstComma rest

/-- `String.replace(/[^\d.]/g, '')`. -/
def keepDigitsDots (s : List Char) : List Char :=
  s.filter (fun c => isDigit c || c = '.')

/-- JS `Number(string)` coercion restricted to decimal forms: whitespace-only
is 0, otherwise the whole trimmed string must be a decimal literal. -/
def numberOfString (s : List Char) : Option ℚ :=
  let t := trim s
  if t.isEmpty then some 0
  else
    let sign : ℚ := if t.headD ' ' = '-' then -1 else 1
    let t1 := if t.headD ' ' = '-' || t.headD ' ' = '+' then t.tail else t
    let intDs := t1.takeWhile isDigit
    let rest := t1.drop intDs.length
    let fracDs := if rest.headD ' ' = '.' then rest.tail.takeWhile isDigit else []
    let rest2 := if rest.headD ' ' = '.' then rest.drop (1 + fracDs.length) else rest
    if rest2.isEmpty ∧ ¬(intDs.isEmpty ∧ fracDs.isEmpty) then
      let iv : ℚ := (intDs.foldl (fun a c => a * 10 + (c.toNat - 48)) 0 : ℕ)
      let fv : ℚ := (fracDs.foldl (fun a c => a * 10 + (c.toNat - 48)) 0 : ℕ)
      some (sign * (iv + fv / (10 : ℚ) ^ fracDs.length))
    else none

end Js

/-! ## SHA-256 (`crypto.createHash('sha256')`), executable -/

namespace Sha256

/-- Reduce to a 32-bit word. -/
def w32 (x : Nat) : Nat := x % 4294967296

/-- 32-bit right rotation of a 32-bit word. -/
def rotr (n x : Nat) : Nat := (x >>> n) + (x % (1 <<< n)) * (1 <<< (32 - n))

/-- 32-bit bitwise complement. -/
def bnot (x : Nat) : Nat := Nat.xor x 4294967295

def ch (x y z : Nat) : Nat := Nat.xor (Nat.land x y) (Nat.land (bnot x) z)

def maj (x y z : Nat) : Nat :=
  Nat.xor (Nat.xor (Nat.land x y) (Nat.land x z)) (Nat.land y z)

def bigS0 (x : Nat) : Nat := Nat.xor (Nat.xor (rotr 2 x) (rotr 13 x)) (rotr 22 x)

def bigS1 (x : Nat) : Nat := Nat.xor (Nat.xor (rotr 6 x) (rotr 11 x)) (rotr 25 x)

def smallS0 (x : Nat) : Nat := Nat.xor (Nat.xor (rotr 7 x) (rotr 18 x)) (x >>> 3)

def smallS1 (x : Nat) : Nat := Nat.xor (Nat.xor (rotr 17 x) (rotr 19 x)) (x >>> 10)

/-- The SHA-256 round constants. -/
def kConst : List Nat :=
  [1116352408, 1899447441, 3049323471, 3921009573, 961987163, 1508970993,
   2453635748, 2870763221, 3624381080, 310598401, 607225278, 1426881987,
   1925078388, 2162078206, 2614888103, 3248222580, 3835390401, 4022224774,
   264347078, 604807628, 770255983, 1249150122, 1555081692, 1996064986,
   2554220882, 2821834349, 2952996808, 3210313671, 3336571891, 3584528711,
   113926993, 338241895, 666307205, 773529912, 1294757372, 1396182291,
   1695183700, 1986661051, 2177026350, 2456956037, 2730485921, 2820302411,
   3259730800, 3345764771, 3516065817, 3600352804, 4094571909, 275423344,
   430227734, 506948616, 659060556, 883997877, 958139571, 1322822218,
   1537002063, 1747873779, 1955562222, 2024104815, 2227730452, 2361852424,
   2428436474, 2756734187, 3204031479, 3329325298]

def hInit : List Nat :=
  [1779033703, 3144134277, 1013904242, 2773480762,
   1359893119, 2600822924, 528734635, 1541459225]

/-- Big-endian combination of 4 bytes into a word. -/
def word (a b c d : Nat) : Nat := ((a * 256 + b) * 256 + c) * 256 + d

/-- Split the padded byte stream into 32-bit big-endian words. -/
def toWords : List Nat → List Nat
  | a :: b :: c :: d :: rest => word a b c d :: toWords rest
  | _ => []

/-- Extend 16 schedule words by `n` further words. -/
def extend : Nat → List Nat → List Nat
  | 0, acc => acc
  | n + 1, acc =>
    let i := acc.length
    let wNew := w32 (smallS1 (acc.getD (i - 2) 0) + acc.getD (i - 7) 0 +
      smallS0 (acc.getD (i - 15) 0) + acc.getD (i - 16) 0)
    extend n (acc ++ [wNew])

/-- One compression round. -/
def round (st : List Nat) (kw : Nat × Nat) : List Nat :=
  match st with
  | [a, b, c, d, e, f, g, h] =>
    let t1 := w32 (h + bigS1 e + ch e f g + kw.1 + kw.2)
    let t2 := w32 (bigS0 a + maj a b c)
    [w32 (t1 + t2), a, b, c, w32 (d + t1), e, f, g]
  | st => st

/-- Process one 64-byte block. -/
def processBlock (h : List Nat) (block : List Nat) : List Nat :=
  let ws := extend 48 (toWords block)
  let st := (kConst.zip ws).foldl round h
  (h.zip st).map (fun p => w32 (p.1 + p.2))

/-- Split a list into chunks of 64 bytes (fuel-based). -/
def chunks64 : Nat → List Nat → List (List Nat)
  | 0, _ => []
  | _, [] => []
  | n + 1, l => l.take 64 :: chunks64 n (l.drop 64)

/-- SHA-256 padding of a byte list. -/
def pad (msg : List Nat) : List Nat :=
  let len := msg.length
  let bitLen := len * 8
  let zeros := (64 - (len + 9) % 64) % 64
  msg ++ [128] ++ List.replicate zeros 0 ++
    [bitLen >>> 56 % 256, bitLen >>> 48 % 256, bitLen >>> 40 % 256, bitLen >>> 32 % 256,
     bitLen >>> 24 % 256, bitLen >>> 16 % 256, bitLen >>> 8 % 256, bitLen % 256]

/-- SHA-256 digest: bytes in, 32 bytes out. -/
def digest (msg : List Nat) : List Nat :=
  let padded := pad msg
  let hs := (chunks64 (padded.length / 64) padded).foldl processBlock hInit
  hs.flatMap (fun w => [w >>> 24 % 256, w >>> 16 % 256, w >>> 8 % 256, w % 256])

def hexDigit (n : Nat) : Char :=
  if n < 10 then Char.ofNat (48 + n) else Char.ofNat (87 + n)

def byteHex (b : Nat) : List Char := [hexDigit (b / 16 % 16), hexDigit (b % 16)]

/-- Hex rendering of a digest, as `hash.digest('hex')`. -/
def hexOfBytes (bs : List Nat) : List Char := bs.flatMap byteHex

/-- UTF-8 encoding of a character (code points below 0x10000, which covers
every character the pipelines produce). -/
def utf8Char (c : Char) : List Nat :=
  let n := c.toNat
  if n < 128 then [n]
  else if n < 2048 then [192 + n / 64, 128 + n % 64]
  else [224 + n / 4096, 128 + n / 64 % 64, 128 + n % 64]

def utf8 (s : List Char) : List Nat := s.flatMap utf8Char

/-- SHA-256 of a string as a lowercase hex string:
`crypto.createHash('sha256').update(s).digest('hex')`. -/
def sha256Hex (s : List Char) : List Char := hexOfBytes (digest (utf8 s))

/-- Is this character a lowercase hex digit? -/
def isHexDigit (c : Char) : Bool :=
  ('0' ≤ c && c ≤ '9') || ('a' ≤ c && c ≤ 'f')

end Sha256

/-! ## The listing data model -/

/-- A JS field that can hold `null`/`undefined`, a number, or a string. -/
inductive FieldVal where
  | fvNull : FieldVal
  | fvNum : ℚ → FieldVal
  | fvStr : String → FieldVal
deriving DecidableEq, Repr

/-- An entry of `changeSet.priceHistory`. -/
structure PriceEntry where
  date : ℤ
  price : FieldVal
deriving DecidableEq, Repr

/-- The `changeSet` JSON blob; only `priceHistory` is touched by the
modelled code.  The JSON stringify/parse round trip is modelled as the
identity on this structured value. -/
structure ChangeSet where
  priceHistory : Option (List PriceEntry) := none
deriving DecidableEq, Repr

/-- A listing as it flows through the scraping pipeline.  In this pipeline
the `id` field holds the provider content hash (the stored `hash` column is
filled from it, see `storeListings`).  The trailing fields are the ones the
version-detection code writes. -/
structure Listing where
  id : Option String := none
  hash : Option String := none
  title : Option String := none
  address : Option String := none
  size : FieldVal := .fvNull
  price : FieldVal := .fvNull
  rooms : FieldVal := .fvNull
  latitude : FieldVal := .fvNull
  longitude : FieldVal := .fvNull
  publishedAt : Option ℤ := none
  changeSet : Option ChangeSet := none
  fuzzyIdentity : Option String := none
  propertyIdentity : Option String := none
  previousVersionId : Option String := none
  batchPreviousHash : Option String := none
deriving DecidableEq, Repr

/-- Is an optional string JS-truthy (present and non-empty)? -/
def strTruthy : Option String → Bool
  | none => false
  | some s => s ≠ ""

/-- Is an optional integer JS-truthy (present and non-zero)? -/
def intTruthy : Option ℤ → Bool
  | none => false
  | some v => v ≠ 0

/-- `a || b` on optional integers with JS falsiness (null and 0 are falsy). -/
def jsOrI (a b : Option ℤ) : Option ℤ :=
  if intTruthy a then a else b

/-- `v || 0` on an optional integer. -/
def jsOrZero (a : Option ℤ) : ℤ :=
  if intTruthy a then a.getD 0 else 0

/-! ## `lib/services/versioning/propertyIdentity.js` -/

namespace PropertyIdentity

/-- `normalizeAddress`: lower-case, expand/abbreviate street words, transliterate
umlauts, collapse whitespace, drop the remaining non-word characters, trim. -/
def normalizeAddress (address : List Char) : List Char :=
  let s := Js.toLower address
  let s := Js.replaceLit "str.".data "strasse".data s
  let s := Js.replaceLit "straße".data "strasse".data s
  let s := Js.replaceLitWordEnd "platz".data "pl".data s
  let s := Js.replaceLitWordEnd "weg".data "wg".data s
  let s := Js.replaceLitWordEnd "allee".data "al".data s
  let s := Js.replaceLit "ä".data "ae".data s
  let s := Js.replaceLit "ö".data "oe".data s
  let s := Js.replaceLit "ü".data "ue".data s
  let s := Js.replaceLit "ß".data "ss".data s
  let s := Js.collapseWs s
  let s := s.filter (fun c => Js.isWordChar c || Js.isSpace c)
  Js.trim s

/-- The string rendering of the `size` field (`String(listing.size)`). -/
def sizeText : FieldVal → List Char
  | .fvNull => []
  | .fvNum q => Js.numToString q
  | .fvStr s => s.data

/-- `computePropertyIdentity`: sha256 of normalized address plus the raw size
text, truncated to 16 hex characters; `null` when the address is missing or
normalizes to the empty string. -/
def computePropertyIdentity (l : Listing) : Option String :=
  if ¬strTruthy l.address then none
  else
    let na := normalizeAddress (l.address.getD "").data
    if na.isEmpty then none
    else
      let sizeStr := if l.size = .fvNull then [] else sizeText l.size
      let input := na ++ '|' :: sizeStr
      some (String.mk ((Sha256.sha256Hex input).take 16))

end PropertyIdentity

/-! ## `lib/services/versioning/fuzzyPropertyMatcher.js` (multi-factor part) -/

namespace FuzzyMatcher

def isSpaceComma (c : Char) : Bool :=
  Js.isSpace c || c = ','

/-- The optional country prefixes of the ZIP pattern `(?:D-?|DE-?)?`, in the
order the regex engine attempts them (greedy option, alternatives in written
order, `-?` greedy). -/
def zipPrefixes : List (List Char) :=
  ["D-".data, "D".data, "DE-".data, "DE".data, []]

/-- Attempt `(?:D-?|DE-?)?(\d{5})(?:[\s,]|$)` at the start of `s`.  Returns
the captured digits and the consumed text (needed by the caller that cuts
the full match out of the address). -/
def zipTryHere (s : List Char) : Option (List Char × List Char) :=
  zipPrefixes.firstM (fun pre =>
    if pre.isPrefixOf s then
      let r := s.drop pre.length
      let ds := r.take 5
      if ds.length = 5 && ds.all Js.isDigit then
        match r.drop 5 with
        | [] => some (ds, pre ++ ds)
        | c :: _ => if isSpaceComma c then some (ds, pre ++ ds ++ [c]) else none
      else none
    else none)

/-- Leftmost match of `/(?:^|[\s,])(?:D-?|DE-?)?(\d{5})(?:[\s,]|$)/`,
scanning each later start position after a space or comma boundary
character.  Returns the captured ZIP and the full matched text. -/
def zipScanTail : List Char → Option (List Char × List Char)
  | [] => none
  | c :: rest =>
    (if isSpaceComma c then (zipTryHere rest).map (fun p => (p.1, c :: p.2)) else none).orElse
      (fun _ => zipScanTail rest)

def zipMatch (s : List Char) : Option (List Char × List Char) :=
  (zipTryHere s).orElse (fun _ => zipScanTail s)

/-- `extractZipCode` (fuzzy matcher version): the captured 5-digit group of
the first match, or null. -/
def extractZipCode (address : Option String) : Option String :=
  if ¬strTruthy address then none
  else (zipMatch (address.getD "").data).map (fun p => String.mk p.1)

/-- Candidates for `(?:\s?[a-zA-Z])?` at `s`, as `(consumed, rest)` pairs in
regex attempt order: space plus letter, letter, empty. -/
def hnLetterAlts (s : List Char) : List (List Char × List Char) :=
  (match s with
   | sp :: l :: r => if Js.isSpace sp && Js.isAlpha l then [([sp, l], r)] else []
   | _ => []) ++
  (match s with
   | l :: r => if Js.isAlpha l then [([l], r)] else []
   | _ => []) ++
  [([], s)]

def isDashChar (c : Char) : Bool :=
  c = '-' || c = '–' || c = '/'

/-- Candidates for `(?:\s?[-–/]\s?\d+(?:\s?[a-zA-Z])?)?` at `s`, in regex
attempt order (greedy `\s?` first, maximal digits, letter alternatives,
then the empty alternative last). -/
def hnRangeAlts (s : List Char) : List (List Char × List Char) :=
  (List.flatten <|
    [true, false].map (fun spaceBefore =>
      let s1opt : Option (List Char × List Char) :=
        if spaceBefore then
          match s with
          | sp :: r => if Js.isSpace sp then some ([sp], r) else none
          | _ => none
        else some ([], s)
      match s1opt with
      | none => []
      | some (t1, r1) =>
        match r1 with
        | [] => []
        | d :: r2 =>
          if ¬isDashChar d then []
          else
            List.flatten <|
              [true, false].map (fun spaceAfter =>
                let s2opt : Option (List Char × List Char) :=
                  if spaceAfter then
                    match r2 with
                    | sp :: r => if Js.isSpace sp then some ([sp], r) else none
                    | _ => none
                  else some ([], r2)
                match s2opt with
                | none => []
                | some (t2, r3) =>
                  let ds := r3.takeWhile Js.isDigit
                  if ds.isEmpty then []
                  else
                    (hnLetterAlts (r3.drop ds.length)).map (fun la =>
                      (t1 ++ d :: t2 ++ ds ++ la.1, la.2))))) ++
  [([], s)]

/-- Attempt the captured part of the house-number pattern at `s` (after the
leading `\s`), returning `(capture, fullTailConsumed)`: try the maximal
digit run, then each letter alternative, then each range alternative, and
accept the first combination followed by `(?:\s|,|$)`. -/
def hnTryHere (s : List Char) : Option (List Char × List Char) :=
  let ds := s.takeWhile Js.isDigit
  if ds.isEmpty then none
  else
    (hnLetterAlts (s.drop ds.length)).firstM (fun la =>
      (hnRangeAlts la.2).firstM (fun ra =>
        match ra.2 with
        | [] => some (ds ++ la.1 ++ ra.1, ds ++ la.1 ++ ra.1)
        | c :: _ =>
          if Js.isSpace c || c = ',' then
            some (ds ++ la.1 ++ ra.1, ds ++ la.1 ++ ra.1 ++ [c])
          else none))

/-- Leftmost match of
`/\s(\d+(?:\s?[a-zA-Z])?(?:\s?[-–/]\s?\d+(?:\s?[a-zA-Z])?)?)(?:\s|,|$)/`.
Returns the captured group and the full matched text (including the leading
whitespace character and the trailing boundary character when consumed). -/
def hnScan : List Char → Option (List Char × List Char)
  | [] => none
  | c :: rest =>
    (if Js.isSpace c then (hnTryHere rest).map (fun p => (p.1, c :: p.2)) else none).orElse
      (fun _ => hnScan rest)

/-- `extractHouseNumber` (fuzzy matcher version): captured group of the first
match, spaces removed, lower-cased. -/
def extractHouseNumber (address : Option String) : Option String :=
  if ¬strTruthy address then none
  else
    (hnScan (address.getD "").data).map (fun p =>
      String.mk (Js.toLower (p.1.filter (fun c => ¬Js.isSpace c))))

/-- `parseSize` (fuzzy matcher version): numbers pass through; strings are
cleaned (`.` removed, first `,` to `.`) and must parse to a positive value. -/
def parseSize : FieldVal → Option ℚ
  | .fvNull => none
  | .fvNum q => some q
  | .fvStr s =>
    match Js.parseFloatCore (Js.replaceFirstComma (Js.removeDots s.data)) with
    | none => none
    | some q => if q ≤ 0 then none else some q

/-- `computeSizeBucket` (multi-factor version): round to the nearest 3 m²
bucket. -/
def computeSizeBucket (size : FieldVal) : Option ℤ :=
  match parseSize size with
  | none => none
  | some q => some (Js.jsRound (q / 3) * 3)

/-- `parsePrice` (fuzzy matcher version): numbers pass through; strings are
cleaned (`.` removed, first `,` to `.`, non-digit non-dot characters
removed) and must parse to a positive value. -/
def parsePrice : FieldVal → Option ℚ
  | .fvNull => none
  | .fvNum q => some q
  | .fvStr s =>
    match Js.parseFloatCore (Js.keepDigitsDots (Js.replaceFirstComma (Js.removeDots s.data))) with
    | none => none
    | some q => if q ≤ 0 then none else some q

/-- `computePriceBucket`: bucket size is 2% of the price rounded to 1000,
with a 5000 minimum; the price is rounded to the nearest bucket. -/
def computePriceBucket (price : FieldVal) : Option ℤ :=
  match parsePrice price with
  | none => none
  | some p =>
    let bucketSize : ℤ := max 5000 (Js.jsRound (p * (2 : ℚ) / 100 / 1000) * 1000)
    some (Js.jsRound (p / (bucketSize : ℚ)) * bucketSize)

/-- `hasValidCoordinates`: both numbers, in range, not exactly (0,0). -/
def hasValidCoordinates : FieldVal → FieldVal → Bool
  | .fvNum a, .fvNum b =>
    decide (-90 ≤ a) && decide (a ≤ 90) && decide (-180 ≤ b) && decide (b ≤ 180) &&
      !(decide (a = 0) && decide (b = 0))
  | _, _ => false

/-- The numeric value under a `hasValidCoordinates` guard. -/
def numOf : FieldVal → ℚ
  | .fvNum q => q
  | _ => 0

/-- Is `listing.rooms != null && listing.rooms > 0` true?  A string field is
coerced with `Number` by the JS `>` comparison. -/
def roomsTruthyPos : FieldVal → Bool
  | .fvNull => false
  | .fvNum q => decide (0 < q)
  | .fvStr s =>
    match Js.numberOfString s.data with
    | some q => decide (0 < q)
    | none => false

/-- Text interpolation of the rooms field (under the guard above). -/
def roomsText : FieldVal → List Char
  | .fvNull => []
  | .fvNum q => Js.numToString q
  | .fvStr s => s.data

/-- Lexicographic code-unit comparison of character lists — the order of the
default JS `Array.sort()` on strings (all involved characters are in the
basic plane, where code units and code points agree). -/
def lexLe : List Char → List Char → Bool
  | [], _ => true
  | _ :: _, [] => false
  | a :: as, b :: bs => if a < b then true else if b < a then false else lexLe as bs

/-- String comparison used by `parts.sort()`. -/
def strLe (a b : String) : Prop := lexLe a.data b.data = true

instance : DecidableRel strLe := fun a b =>
  inferInstanceAs (Decidable (lexLe a.data b.data = true))

instance : IsTotal String strLe := ⟨by
  intro a b
  show lexLe a.data b.data = true ∨ lexLe b.data a.data = true
  generalize a.data = l1
  generalize b.data = l2
  induction l1 generalizing l2 with
  | nil => exact Or.inl rfl
  | cons x xs ih =>
    cases l2 with
    | nil => exact Or.inr rfl
    | cons y ys =>
      rcases lt_trichotomy x y with h | h | h
      · exact Or.inl (by simp [lexLe, h])
      · subst h
        rcases ih ys with h2 | h2
        · exact Or.inl (by simp [lexLe, lt_irrefl, h2])
        · exact Or.inr (by simp [lexLe, lt_irrefl, h2])
      · exact Or.inr (by simp [lexLe, h])⟩

instance : IsTrans String strLe := ⟨by
  intro a b c h1 h2
  show lexLe a.data c.data = true
  revert h1 h2
  show lexLe a.data b.data = true → lexLe b.data c.data = true → _
  generalize a.data = l1
  generalize b.data = l2
  generalize c.data = l3
  induction l1 generalizing l2 l3 with
  | nil => exact fun _ _ => rfl
  | cons x xs ih =>
    cases l2 with
    | nil => intro h1 _; simp [lexLe] at h1
    | cons y ys =>
      cases l3 with
      | nil => intro _ h2; simp [lexLe] at h2
      | cons z zs =>
        intro h1 h2
        simp only [lexLe] at h1 h2 ⊢
        rcases lt_trichotomy x y with hxy | hxy | hxy
        · rcases lt_trichotomy y z with hyz | hyz | hyz
          · simp [lt_trans hxy hyz]
          · subst hyz; simp [hxy]
          · rw [if_neg (asymm hyz), if_pos hyz] at h2; simp at h2
        · subst hxy
          rcases lt_trichotomy x z with hxz | hxz | hxz
          · simp [hxz]
          · subst hxz
            rw [if_neg (lt_irrefl x), if_neg (lt_irrefl x)] at h1 h2 ⊢
            exact ih ys zs h1 h2
          · rw [if_neg (asymm hxz), if_pos hxz] at h2; simp at h2
        · rw [if_neg (asymm hxy), if_pos hxy] at h1; simp at h1⟩

instance : IsAntisymm String strLe := ⟨by
  intro a b h1 h2
  show a = b
  cases a with
  | mk l1 =>
    cases b with
    | mk l2 =>
      congr 1
      revert h1 h2
      show lexLe l1 l2 = true → lexLe l2 l1 = true → _
      induction l1 generalizing l2 with
      | nil =>
        intro _ h2
        cases l2 with
        | nil => rfl
        | cons y ys => simp [lexLe] at h2
      | cons x xs ih =>
        cases l2 with
        | nil => intro h1 _; simp [lexLe] at h1
        | cons y ys =>
          intro h1 h2
          simp only [lexLe] at h1 h2
          rcases lt_trichotomy x y with hxy | hxy | hxy
          · rw [if_neg (asymm hxy), if_pos hxy] at h2; simp at h2
          · subst hxy
            rw [if_neg (lt_irrefl x), if_neg (lt_irrefl x)] at h1 h2
            rw [ih ys h1 h2]
          · rw [if_neg (asymm hxy), if_pos hxy] at h1; simp at h1⟩

/-- `parts.sort().join('||')` followed by sha256 and truncation to 16 hex
characters: the hash step of `computeFuzzyIdentity`, factored out so that
its permutation invariance can be stated. -/
def partsHash (parts : List String) : String :=
  String.mk ((Sha256.sha256Hex (String.intercalate "||" (parts.insertionSort strLe)).data).take 16)

/-- The ordered factor list of `computeFuzzyIdentity`: geo cell, ZIP, house
number, size bucket, exact rooms, price bucket — each contributed only when
derivable. -/
def fuzzyParts (l : Listing) : List String :=
  (if hasValidCoordinates l.latitude l.longitude then
    let roundedLat := (Js.jsRound (numOf l.latitude * 3333) : ℚ) / 3333
    let roundedLon := (Js.jsRound (numOf l.longitude * 3333) : ℚ) / 3333
    [String.mk ("geo:".data ++ Js.toFixed4 roundedLat ++ ':' :: Js.toFixed4 roundedLon)]
  else []) ++
  (match extractZipCode l.address with
   | some z => [String.mk ("plz:".data ++ z.data)]
   | none => []) ++
  (match extractHouseNumber l.address with
   | some hn => [String.mk ("hn:".data ++ hn.data)]
   | none => []) ++
  (match computeSizeBucket l.size with
   | some b => [String.mk ("size:".data ++ Js.intToString b)]
   | none => []) ++
  (if roomsTruthyPos l.rooms then [String.mk ("rooms:".data ++ roomsText l.rooms)] else []) ++
  (match computePriceBucket l.price with
   | some b => [String.mk ("price:".data ++ Js.intToString b)]
   | none => [])

/-- `computeFuzzyIdentity` (multi-factor version): null unless at least 4
factors are derivable, else the 16-hex-character hash of the sorted factor
parts. -/
def computeFuzzyIdentity (l : Listing) : Option String :=
  let parts := fuzzyParts l
  if parts.length < 4 then none
  else some (partsHash parts)

/-- `sizesMatch`: both sizes known and within 5% relative difference of
their average.  A zero average (possible only for non-positive number-typed
sizes) produces NaN/Infinity in JS, failing the comparison; this is the
explicit `avg = 0` branch. -/
def sizesMatch (size1 size2 : FieldVal) : Bool :=
  match parseSize size1, parseSize size2 with
  | some s1, some s2 =>
    let avg := (s1 + s2) / 2
    if avg = 0 then false else decide (|s1 - s2| / avg ≤ 1 / 20)
  | _, _ => false

/-- `pricesMatch`: both prices known and within 5% relative difference. -/
def pricesMatch (price1 price2 : FieldVal) : Bool :=
  match parsePrice price1, parsePrice price2 with
  | some p1, some p2 =>
    let avg := (p1 + p2) / 2
    if avg = 0 then false else decide (|p1 - p2| / avg ≤ 1 / 20)
  | _, _ => false

/-- The fuzzy-identity fallback comparison of `couldBeSameProperty`: both
identities non-null and equal. -/
def fuzzyIdentitiesEqual (l1 l2 : Listing) : Bool :=
  match computeFuzzyIdentity l1, computeFuzzyIdentity l2 with
  | some i1, some i2 => i1 = i2
  | _, _ => false

/-- The part of `couldBeSameProperty` after the room and price checks,
split out only to keep the definition readable. -/
def couldBeSamePropertyTail (hav : ℚ → ℚ → ℚ → ℚ → ℚ) (l1 l2 : Listing) : Bool :=
  let zip1 := extractZipCode l1.address
  let zip2 := extractZipCode l2.address
  if strTruthy zip1 && strTruthy zip2 && zip1 ≠ zip2 then false
  else
    let hn1 := extractHouseNumber l1.address
    let hn2 := extractHouseNumber l2.address
    if strTruthy hn1 && strTruthy hn2 && hn1 ≠ hn2 then false
    else
      let hasGeo1 := hasValidCoordinates l1.latitude l1.longitude
      let hasGeo2 := hasValidCoordinates l2.latitude l2.longitude
      let fuzzyFallback : Bool := fuzzyIdentitiesEqual l1 l2
      if hasGeo1 && hasGeo2 then
        let distance := hav (numOf l1.latitude) (numOf l1.longitude)
          (numOf l2.latitude) (numOf l2.longitude)
        if distance ≤ 30 then true
        else if distance > 200 then false
        else fuzzyFallback
      else fuzzyFallback

/-- `couldBeSameProperty`, parameterized by the float Haversine core `hav`
(transcendental, so not representable exactly; the fuzzy-matcher version
applies no rounding to it).  The JS function returns `null` in some
non-match cases; the model collapses all falsy results to `false`. -/
def couldBeSameProperty (hav : ℚ → ℚ → ℚ → ℚ → ℚ) (l1 l2 : Listing) : Bool :=
  if strTruthy l1.hash && strTruthy l2.hash && l1.hash = l2.hash then true
  else if ¬sizesMatch l1.size l2.size then false
  else if l1.rooms ≠ .fvNull ∧ l2.rooms ≠ .fvNull then
    if l1.rooms ≠ l2.rooms then false
    else if ¬pricesMatch l1.price l2.price then false
    else couldBeSamePropertyTail hav l1 l2
  else false

end FuzzyMatcher

/-! ## `lib/services/similarity/addressNormalizer.js` -/

namespace AddressNormalizer

/-- `STREET_TYPE_MAPPINGS`, in object insertion order. -/
def streetTypeMappings : List (String × String) :=
  [("str", "strasse"), ("str.", "strasse"), ("straße", "strasse"), ("strasse", "strasse"),
   ("pl", "platz"), ("pl.", "platz"), ("platz", "platz"),
   ("wg", "weg"), ("wg.", "weg"), ("weg", "weg"),
   ("al", "allee"), ("al.", "allee"), ("allee", "allee"),
   ("gasse", "gasse"), ("ring", "ring"), ("damm", "damm"), ("ufer", "ufer"),
   ("chaussee", "chaussee"), ("promenade", "promenade"),
   ("steig", "steig"), ("stieg", "stieg"), ("pfad", "pfad"),
   ("brücke", "bruecke"), ("bruecke", "bruecke")]

/-- `replaceUmlauts` via `UMLAUT_MAP`. -/
def umlautChar : Char → List Char
  | 'ä' => "ae".data
  | 'ö' => "oe".data
  | 'ü' => "ue".data
  | 'ß' => "ss".data
  | 'Ä' => "ae".data
  | 'Ö' => "oe".data
  | 'Ü' => "ue".data
  | c => [c]

def replaceUmlauts (s : List Char) : List Char :=
  s.flatMap umlautChar

/-- Replace the first occurrence of `pat` in `s` by `repl`
(JS `String.replace` with a string pattern). -/
def replaceFirstSeq (pat repl : List Char) : List Char → List Char
  | [] => []
  | c :: rest =>
    if pat.isPrefixOf (c :: rest) ∧ pat ≠ [] then repl ++ (c :: rest).drop pat.length
    else c :: replaceFirstSeq pat repl rest

/-- `extractZipCode` (normalizer version): the captured ZIP and the address
with the full matched text replaced by a space and trimmed. -/
def extractZipCode (address : List Char) : Option String × List Char :=
  match FuzzyMatcher.zipMatch address with
  | none => (none, address)
  | some (z, full) => (some (String.mk z), Js.trim (replaceFirstSeq full [' '] address))

/-- `extractHouseNumber` (normalizer version). -/
def extractHouseNumber (address : List Char) : Option String × List Char :=
  match FuzzyMatcher.hnScan address with
  | none => (none, address)
  | some (hn, full) =>
    (some (String.mk (Js.toLower (hn.filter (fun c => ¬Js.isSpace c)))),
     Js.trim (replaceFirstSeq full [' '] address))

/-- The letter class `[A-Za-zäöüÄÖÜß]` of the dash-district pattern. -/
def isDashLetter (c : Char) : Bool :=
  Js.isAlpha c || c = 'ä' || c = 'ö' || c = 'ü' || c = 'Ä' || c = 'Ö' || c = 'Ü' || c = 'ß'

/-- District from the first parenthetical group, following the leftmost
match of `/([^(]+)\s*\(([^)]+)\)/`: the group after the first `(` which has
at least one character before it and a non-adjacent closing `)`. -/
def parenDistrictAux : Nat → Char → List Char → Option (List Char)
  | _, _, [] => none
  | i, prev, c :: rest =>
    if c = '(' ∧ 0 < i ∧ prev ≠ '(' then
      let inside := rest.takeWhile (· ≠ ')')
      if inside.length ≥ 1 ∧ (rest.drop inside.length).headD ' ' = ')' then some inside
      else parenDistrictAux (i + 1) c rest
    else parenDistrictAux (i + 1) c rest

def parenDistrict (s : List Char) : Option (List Char) :=
  parenDistrictAux 0 ' ' s

/-- District from the dash form, following the leftmost match of
`/([A-Za-zäöüÄÖÜß]+)-([A-Za-zäöüÄÖÜß]+)(?:\s|,|$)/`. -/
def dashDistrict : List Char → Option (List Char)
  | [] => none
  | c :: rest =>
    (if isDashLetter c then
      let run := (c :: rest).takeWhile isDashLetter
      match (c :: rest).drop run.length with
      | '-' :: tl =>
        let run2 := tl.takeWhile isDashLetter
        if run2.length ≥ 1 then
          match tl.drop run2.length with
          | [] => some run2
          | d :: _ => if Js.isSpace d || d = ',' then some run2 else none
        else none
      | _ => none
    else none).orElse (fun _ => dashDistrict rest)

/-- `/^\d+[a-z]?$/` — does the word look like a house number? -/
def looksLikeHouseNumber (w : List Char) : Bool :=
  let ds := w.takeWhile Js.isDigit
  ds.length ≥ 1 &&
    (match w.drop ds.length with
     | [] => true
     | [l] => 'a' ≤ l && l ≤ 'z'
     | _ => false)

/-- `extractCityAndDistrict`. -/
def extractCityAndDistrict (address : List Char) : Option String × Option String :=
  let district1 := (parenDistrict address).map Js.trim
  let district :=
    match district1 with
    | some d => some d
    | none => dashDistrict address
  let awz := (extractZipCode address).2
  let words := (Js.splitRuns (fun c => Js.isSpace c || c = ',') awz).filter (·.length > 0)
  let city := words.reverse.find? (fun w =>
    ¬looksLikeHouseNumber w ∧
    ¬(streetTypeMappings.map (·.1)).contains (String.mk (Js.toLower w)) ∧
    w.length ≥ 3)
  (city.map String.mk, district.map String.mk)

/-- A JS word boundary between an adjacent pair of characters (`none` means
the string edge). -/
def boundaryBetween (a b : Option Char) : Bool :=
  (match a with | none => false | some c => Js.isWordChar c) ≠
    (match b with | none => false | some c => Js.isWordChar c)

/-- Global case-insensitive replacement of `\bpat\b` by `repl` (used with a
literal `pat`; regex metacharacters inside `pat` other than an escaped dot
are not modelled, matching its use on plain words). -/
def replaceWordCIAux (pat repl : List Char) : Nat → Option Char → List Char → List Char
  | 0, _, s => s
  | fuel + 1, prev, s =>
    match s with
    | [] => []
    | c :: rest =>
      if (Js.toLower pat).isPrefixOf (Js.toLower s) ∧ pat ≠ [] ∧
          boundaryBetween prev (some c) = true ∧
          boundaryBetween (pat.getLast? ) ((s.drop pat.length).head?) = true then
        repl ++ replaceWordCIAux pat repl fuel (pat.getLast?) (s.drop pat.length)
      else
        c :: replaceWordCIAux pat repl fuel (some c) rest

def replaceWordCI (pat repl s : List Char) : List Char :=
  replaceWordCIAux pat repl s.length none s

/-- `street.replace(/\([^)]+\)/g, '')`. -/
def removeParenGroupsAux : Nat → List Char → List Char
  | 0, s => s
  | fuel + 1, s =>
    match s with
    | [] => []
    | c :: rest =>
      if c = '(' then
        let inside := rest.takeWhile (· ≠ ')')
        if inside.length ≥ 1 ∧ (rest.drop inside.length).headD ' ' = ')' then
          removeParenGroupsAux fuel (rest.drop (inside.length + 1))
        else c :: removeParenGroupsAux fuel rest
      else c :: removeParenGroupsAux fuel rest

def removeParenGroups (s : List Char) : List Char :=
  removeParenGroupsAux s.length s

/-- The leading-words pattern of `normalizeStreetName`:
`/^(am|an der|an dem|im|in der|in dem|auf der|auf dem|zur|zum)\s+/i`,
with the alternatives tried in written order. -/
def streetPrefixes : List String :=
  ["am", "an der", "an dem", "im", "in der", "in dem", "auf der", "auf dem", "zur", "zum"]

def stripStreetPrefix (s : List Char) : List Char :=
  match streetPrefixes.firstM (fun p =>
    if (Js.toLower p.data).isPrefixOf (Js.toLower s) then
      let r := s.drop p.data.length
      if r.headD 'x' |> Js.isSpace then some (r.dropWhile Js.isSpace) else none
    else none) with
  | some r => r
  | none => s

/-- `normalizeStreetName`. -/
def normalizeStreetName (street : List Char) : List Char :=
  if street.isEmpty then []
  else
    let s := Js.toLower street
    let s := replaceUmlauts s
    let s := stripStreetPrefix s
    let s := streetTypeMappings.foldl (fun acc m => replaceWordCI m.1.data m.2.data acc) s
    Js.trim (Js.collapseWs s)

/-- The result of `parseAddress`. -/
structure ParsedAddress where
  original : String
  normalized : String
  zipCode : Option String
  city : Option String
  district : Option String
  street : Option String
  houseNumber : Option String
deriving DecidableEq, Repr

/-- `parseAddress`. -/
def parseAddress (address : Option String) : ParsedAddress :=
  if ¬strTruthy address then
    { original := "", normalized := "", zipCode := none, city := none, district := none,
      street := none, houseNumber := none }
  else
    let a := (address.getD "").data
    let (zipCode, awz) := extractZipCode a
    let (houseNumber, awn) := extractHouseNumber awz
    let (city, district) := extractCityAndDistrict awz
    let street := awn
    let street :=
      match city with
      | some c => Js.trim (replaceWordCI c.data [] street)
      | none => street
    let street := Js.trim (removeParenGroups street)
    let street := Js.trim (street.map (fun c => if c = ',' then ' ' else c))
    let normalizedStreet := normalizeStreetName street
    let parts : List (List Char) :=
      (if normalizedStreet.isEmpty then [] else [normalizedStreet]) ++
      (match houseNumber with | some hn => [hn.data] | none => []) ++
      (match zipCode with | some z => [z.data] | none => []) ++
      (match city with | some c => [replaceUmlauts (Js.toLower c.data)] | none => [])
    { original := address.getD ""
      normalized := String.mk (List.intercalate [' '] parts)
      zipCode := zipCode
      city := city.map (fun c => String.mk (replaceUmlauts (Js.toLower c.data)))
      district := district.map (fun d => String.mk (replaceUmlauts (Js.toLower d.data)))
      street := if normalizedStreet.isEmpty then none else some (String.mk normalizedStreet)
      houseNumber := houseNumber }

/-- The token-containment test of `fuzzyStringMatch`
(`t1 === t2 || t1.includes(t2) || t2.includes(t1)`). -/
def tokensAlike (t1 t2 : List Char) : Bool :=
  t1 = t2 || Js.containsSeq t1 t2 || Js.containsSeq t2 t1

/-- The matched-token count of `fuzzyStringMatch`. -/
def matchedTokens (s1 s2 : List Char) : ℕ :=
  ((Js.splitWs s1).filter (fun t1 => (Js.splitWs s2).any (tokensAlike t1))).length

/-- `fuzzyStringMatch`: 1 on equality, containment ratio, else the matched
token ratio; always in `[0, 1]`.  (`s1`/`s2` of the source are the
lower-cased inputs, inlined here.) -/
def fuzzyStringMatch (str1 str2 : List Char) : ℚ :=
  if str1.isEmpty ∨ str2.isEmpty then 0
  else if str1 = str2 then 1
  else if Js.containsSeq (Js.toLower str1) (Js.toLower str2) ||
      Js.containsSeq (Js.toLower str2) (Js.toLower str1) then
    (min (Js.toLower str1).length (Js.toLower str2).length : ℚ) /
      (max (Js.toLower str1).length (Js.toLower str2).length : ℚ)
  else if max (Js.splitWs (Js.toLower str1)).length (Js.splitWs (Js.toLower str2)).length > 0 then
    (matchedTokens (Js.toLower str1) (Js.toLower str2) : ℚ) /
      (max (Js.splitWs (Js.toLower str1)).length (Js.splitWs (Js.toLower str2)).length : ℚ)
  else 0

/-- The detail flags of `compareAddresses` (the fields of its `details`). -/
structure CompareDetails where
  zipMatch : Bool
  cityMatch : Bool
  streetMatch : Bool
  houseNumberMatch : Bool
  houseNumberPartialMatch : Bool
deriving DecidableEq, Repr

/-- The result of `compareAddresses`. -/
structure CompareResult where
  score : ℤ
  details : CompareDetails
  parsed1 : ParsedAddress
  parsed2 : ParsedAddress
deriving DecidableEq, Repr

/-- House-number normalization inside `compareAddresses`:
`replace(/[-–/]/g, '-')`. -/
def normDashes (s : List Char) : List Char :=
  s.map (fun c => if FuzzyMatcher.isDashChar c then '-' else c)

/-- The ZIP component of `compareAddresses` (25 points on an exact match of
two present ZIPs). -/
def zipPoints (p1 p2 : ParsedAddress) : ℤ :=
  match p1.zipCode, p2.zipCode with
  | some z1, some z2 => if z1 = z2 then 25 else 0
  | _, _ => 0

/-- The city component (15 points on an exact match). -/
def cityPoints (p1 p2 : ParsedAddress) : ℤ :=
  match p1.city, p2.city with
  | some c1, some c2 => if c1 = c2 then 15 else 0
  | _, _ => 0

/-- The fuzzy street sub-score, when both streets are present. -/
def streetScoreOpt (p1 p2 : ParsedAddress) : Option ℚ :=
  match p1.street, p2.street with
  | some s1, some s2 => some (fuzzyStringMatch s1.data s2.data)
  | _, _ => none

/-- The street component (the sub-score scaled to 40 points). -/
def streetPoints (p1 p2 : ParsedAddress) : ℤ :=
  match streetScoreOpt p1 p2 with
  | some sc => Js.jsRound (sc * 40)
  | none => 0

/-- The house-number component: points, exact-match flag, partial-match
flag (20 points exact, 10 for a matching range base). -/
def houseNumberResult (p1 p2 : ParsedAddress) : ℤ × Bool × Bool :=
  match p1.houseNumber, p2.houseNumber with
  | some h1, some h2 =>
    let n1 := normDashes h1.data
    let n2 := normDashes h2.data
    if n1 = n2 then (20, true, false)
    else
      let b1 := (Js.splitChar '-' n1).headD []
      let b2 := (Js.splitChar '-' n2).headD []
      if b1 = b2 then (10, false, true) else (0, false, false)
  | _, _ => (0, false, false)

/-- `compareAddresses`: ZIP 25, city 15, fuzzy street up to 40, house number
20 (10 for a matching range base). -/
def compareAddresses (address1 address2 : Option String) : CompareResult :=
  let parsed1 := parseAddress address1
  let parsed2 := parseAddress address2
  let hn := houseNumberResult parsed1 parsed2
  { score := zipPoints parsed1 parsed2 + cityPoints parsed1 parsed2 +
      streetPoints parsed1 parsed2 + hn.1
    details :=
      { zipMatch := zipPoints parsed1 parsed2 = 25
        cityMatch := cityPoints parsed1 parsed2 = 15
        streetMatch :=
          match streetScoreOpt parsed1 parsed2 with
          | some sc => decide (sc ≥ 4 / 5)
          | none => false
        houseNumberMatch := hn.2.1
        houseNumberPartialMatch := hn.2.2 }
    parsed1 := parsed1
    parsed2 := parsed2 }

end AddressNormalizer

/-! ## `lib/services/similarity/geoMatcher.js` -/

namespace GeoMatcher

/-- `PROXIMITY_THRESHOLDS`. -/
def proximityThresholds : List (ℚ × ℤ) :=
  [(30, 20), (50, 15), (100, 10), (200, 5)]

/-- `isValidCoordinate` (geo matcher version; the checks coincide with the
fuzzy matcher's `hasValidCoordinates`). -/
def isValidCoordinate : FieldVal → FieldVal → Bool
  | .fvNum a, .fvNum b =>
    decide (-90 ≤ a) && decide (a ≤ 90) && decide (-180 ≤ b) && decide (b ≤ 180) &&
      !(decide (a = 0) && decide (b = 0))
  | _, _ => false

/-- `haversineDistance` (geo matcher version) rounds the core great-circle
distance to 0.1 m; the transcendental core is the parameter `hav`. -/
def haversineDistance (hav : ℚ → ℚ → ℚ → ℚ → ℚ) (lat1 lon1 lat2 lon2 : ℚ) : ℚ :=
  (Js.jsRound (hav lat1 lon1 lat2 lon2 * 10) : ℚ) / 10

/-- The result of `calculateGeoScore`; the `confidence`/`reason` strings are
summarized by the fields a caller inspects. -/
structure GeoScoreResult where
  score : ℤ
  distance : Option ℚ
deriving DecidableEq, Repr

/-- `calculateGeoScore`. -/
def calculateGeoScore (hav : ℚ → ℚ → ℚ → ℚ → ℚ) (lat1 lon1 lat2 lon2 : FieldVal) :
    GeoScoreResult :=
  if ¬(isValidCoordinate lat1 lon1 && isValidCoordinate lat2 lon2) then
    { score := 0, distance := none }
  else
    let d := haversineDistance hav (FuzzyMatcher.numOf lat1) (FuzzyMatcher.numOf lon1)
      (FuzzyMatcher.numOf lat2) (FuzzyMatcher.numOf lon2)
    match proximityThresholds.find? (fun t => d ≤ t.1) with
    | some t => { score := t.2, distance := some d }
    | none => { score := 0, distance := some d }

end GeoMatcher

/-! ## `lib/services/similarity/enhancedSimilarityScorer.js` (scoring part) -/

namespace Scorer

/-- `FACTOR_WEIGHTS`. -/
def weightAddress : ℤ := 40

def weightSize : ℤ := 20

def weightGeo : ℤ := 20

def weightRooms : ℤ := 10

def weightPrice : ℤ := 10

/-- `parseSize` (scorer version): numbers pass through, strings are cleaned
(`.` removed, first `,` to `.`, non-digit non-dot removed) and must be
positive. -/
def parseSize : FieldVal → Option ℚ
  | .fvNull => none
  | .fvNum q => some q
  | .fvStr s =>
    match Js.parseFloatCore (Js.keepDigitsDots (Js.replaceFirstComma (Js.removeDots s.data))) with
    | none => none
    | some q => if q ≤ 0 then none else some q

/-- `parseRooms` (scorer version): like `parseSize` but without removing
dots. -/
def parseRooms : FieldVal → Option ℚ
  | .fvNull => none
  | .fvNum q => some q
  | .fvStr s =>
    match Js.parseFloatCore (Js.keepDigitsDots (Js.replaceFirstComma s.data)) with
    | none => none
    | some q => if q ≤ 0 then none else some q

/-- `parsePrice` (scorer version). -/
def parsePrice : FieldVal → Option ℚ
  | .fvNull => none
  | .fvNum q => some q
  | .fvStr s =>
    match Js.parseFloatCore (Js.keepDigitsDots (Js.replaceFirstComma (Js.removeDots s.data))) with
    | none => none
    | some q => if q ≤ 0 then none else some q

/-- One factor of the similarity result.  `score` carries the 0-100 address
sub-score and `distance` the geo distance, the two details the confidence
classifier reads. -/
structure FactorResult where
  points : ℤ
  available : Bool
  score : Option ℤ := none
  distance : Option ℚ := none
deriving DecidableEq, Repr

/-- `calculateAddressScore`: scale the 0-100 address comparison to 40
points. -/
def calculateAddressScore (l1 l2 : Listing) : FactorResult :=
  if ¬(strTruthy l1.address && strTruthy l2.address) then
    { points := 0, available := false }
  else
    let comparison := AddressNormalizer.compareAddresses l1.address l2.address
    { points := Js.jsRound ((comparison.score : ℚ) / 100 * 40)
      available := true
      score := some comparison.score }

/-- `calculateSizeScore`: 5%/10%/15% percentage-difference tiers worth
100%/80%/50% of 20 points.  The explicit `avg = 0` branch models the JS
NaN/Infinity comparisons all being false. -/
def calculateSizeScore (l1 l2 : Listing) : FactorResult :=
  match parseSize l1.size, parseSize l2.size with
  | some s1, some s2 =>
    let avg := (s1 + s2) / 2
    let pts : ℤ :=
      if avg = 0 then 0
      else
        let pd := |s1 - s2| / avg
        if pd ≤ 5 / 100 then 20
        else if pd ≤ 10 / 100 then Js.jsRound ((20 : ℚ) * 8 / 10)
        else if pd ≤ 15 / 100 then Js.jsRound ((20 : ℚ) * 5 / 10)
        else 0
    { points := pts, available := true }
  | _, _ => { points := 0, available := false }

/-- `calculateGeoSimilarityScore`, delegating to the geo matcher. -/
def calculateGeoSimilarityScore (hav : ℚ → ℚ → ℚ → ℚ → ℚ) (l1 l2 : Listing) : FactorResult :=
  let geoResult := GeoMatcher.calculateGeoScore hav l1.latitude l1.longitude l2.latitude l2.longitude
  { points := geoResult.score
    available := geoResult.distance ≠ none
    distance := geoResult.distance }

/-- `calculateRoomScore`: exact/0.5/1.0 room-difference tiers worth
100%/80%/50% of 10 points. -/
def calculateRoomScore (l1 l2 : Listing) : FactorResult :=
  match parseRooms l1.rooms, parseRooms l2.rooms with
  | some r1, some r2 =>
    let diff := |r1 - r2|
    let pts : ℤ :=
      if diff = 0 then 10
      else if diff ≤ 1 / 2 then Js.jsRound ((10 : ℚ) * 8 / 10)
      else if diff ≤ 1 then Js.jsRound ((10 : ℚ) * 5 / 10)
      else 0
    { points := pts, available := true }
  | _, _ => { points := 0, available := false }

/-- `calculatePriceScore`: 5%/10%/20% percentage-difference tiers worth
100%/80%/50% of 10 points. -/
def calculatePriceScore (l1 l2 : Listing) : FactorResult :=
  match parsePrice l1.price, parsePrice l2.price with
  | some p1, some p2 =>
    let avg := (p1 + p2) / 2
    let pts : ℤ :=
      if avg = 0 then 0
      else
        let pd := |p1 - p2| / avg
        if pd ≤ 5 / 100 then 10
        else if pd ≤ 10 / 100 then Js.jsRound ((10 : ℚ) * 8 / 10)
        else if pd ≤ 20 / 100 then Js.jsRound ((10 : ℚ) * 5 / 10)
        else 0
    { points := pts, available := true }
  | _, _ => { points := 0, available := false }

/-- The five factors of a similarity result. -/
structure Factors where
  address : FactorResult
  size : FactorResult
  geo : FactorResult
  rooms : FactorResult
  price : FactorResult
deriving DecidableEq, Repr

inductive Confidence where
  | high
  | medium
  | low
  | none
deriving DecidableEq, Repr

/-- `CONFIDENCE_THRESHOLDS`. -/
def thresholdHigh : ℤ := 80

def thresholdMedium : ℤ := 60

def thresholdLow : ℤ := 40

/-- `calculateConfidence`. -/
def calculateConfidence (totalScore : ℤ) (factors : Factors) : Confidence :=
  let fs := [factors.address, factors.size, factors.geo, factors.rooms, factors.price]
  let availableFactors := (fs.filter (·.available)).length
  if availableFactors < 3 then
    if totalScore ≥ thresholdMedium then .medium else .low
  else
    let hasStrongGeo := factors.geo.available &&
      (match factors.geo.distance with | some d => decide (d ≤ 50) | Option.none => false)
    let hasStrongAddress := factors.address.available &&
      (match factors.address.score with | some sc => decide (sc ≥ 80) | Option.none => false)
    if hasStrongGeo && hasStrongAddress && totalScore ≥ thresholdMedium then .high
    else if totalScore ≥ thresholdHigh then .high
    else if totalScore ≥ thresholdMedium then .medium
    else if totalScore ≥ thresholdLow then .low
    else .none

/-- `generateRecommendation`. -/
def generateRecommendation (score : ℤ) (confidence : Confidence) : String :=
  if confidence = .high ∧ score ≥ 80 then
    "Very likely the same property. Auto-linking recommended."
  else if confidence = .high ∨ (confidence = .medium ∧ score ≥ 70) then
    "Likely the same property. Manual review recommended."
  else if confidence = .medium ∧ score ≥ 50 then
    "Possibly the same property. User verification needed."
  else if score ≥ 40 then
    "Some similarities detected. Manual comparison advised."
  else
    "Unlikely to be the same property."

/-- The result of `computeSimilarity`. -/
structure SimilarityResult where
  score : ℤ
  confidence : Confidence
  factors : Factors
  recommendation : String
deriving DecidableEq, Repr

/-- `computeSimilarity`: the five factor scores, their sum, the confidence
classification and the recommendation text. -/
def computeSimilarity (hav : ℚ → ℚ → ℚ → ℚ → ℚ) (l1 l2 : Listing) : SimilarityResult :=
  let addressResult := calculateAddressScore l1 l2
  let sizeResult := calculateSizeScore l1 l2
  let geoResult := calculateGeoSimilarityScore hav l1 l2
  let roomResult := calculateRoomScore l1 l2
  let priceResult := calculatePriceScore l1 l2
  let totalScore := addressResult.points + sizeResult.points + geoResult.points +
    roomResult.points + priceResult.points
  let factors : Factors :=
    { address := addressResult, size := sizeResult, geo := geoResult,
      rooms := roomResult, price := priceResult }
  let confidence := calculateConfidence totalScore factors
  { score := Js.jsRound (totalScore : ℚ)
    confidence := confidence
    factors := factors
    recommendation := generateRecommendation totalScore confidence }

/-- An element of the `findSimilarListings` result. -/
structure MatchEntry where
  listing : Listing
  similarity : SimilarityResult
deriving DecidableEq, Repr

/-- The descending-score order of the result sort
(`(a, b) => b.similarity.score - a.similarity.score`, a stable sort). -/
def scoreGe (a b : MatchEntry) : Prop :=
  b.similarity.score ≤ a.similarity.score

instance : DecidableRel scoreGe := fun a b =>
  inferInstanceAs (Decidable (b.similarity.score ≤ a.similarity.score))

instance : IsTotal MatchEntry scoreGe :=
  ⟨fun a b => le_total b.similarity.score a.similarity.score⟩

instance : IsTrans MatchEntry scoreGe :=
  ⟨fun _ _ _ h1 h2 => le_trans h2 h1⟩

/-- The loop body of `findSimilarListings`: skip self matches (same id or
same hash), then keep the candidate when its similarity score reaches
`minScore`. -/
def selectCandidate (hav : ℚ → ℚ → ℚ → ℚ → ℚ) (target : Listing) (minScore : ℤ)
    (candidate : Listing) : Option MatchEntry :=
  if candidate.id = target.id ∨ candidate.hash = target.hash then none
  else if (computeSimilarity hav target candidate).score ≥ minScore then
    some { listing := candidate, similarity := computeSimilarity hav target candidate }
  else none

/-- `findSimilarListings`: drop self matches (same id or same hash), keep
candidates scoring at least `minScore`, sort by score descending, truncate
to `maxResults`.  The two option fields are modelled as explicit arguments
(their defaults in the source are 50 and 10). -/
def findSimilarListings (hav : ℚ → ℚ → ℚ → ℚ → ℚ) (target : Listing)
    (candidates : List Listing) (minScore : ℤ) (maxResults : ℕ) : List MatchEntry :=
  let results := candidates.filterMap (selectCandidate hav target minScore)
  (results.insertionSort scoreGe).take maxResults

end Scorer

/-! ## The persisted store (`listings` table, `manual_property_links` table)

One job's slice of the SQLite database; the identity/version migration is
assumed applied (every `columnExists` check in the source succeeds). -/

/-- A row of `listings`. -/
structure DbListing where
  dbId : String
  hash : String := ""
  title : Option String := none
  address : Option String := none
  price : FieldVal := .fvNull
  size : FieldVal := .fvNull
  publishedAt : Option ℤ := none
  createdAt : Option ℤ := none
  previousVersionId : Option String := none
  isSuperseded : Bool := false
  manuallyDeleted : Bool := false
  fuzzyIdentity : Option String := none
  propertyIdentity : Option String := none
  changeSet : Option ChangeSet := none
deriving DecidableEq, Repr

/-- A row of `manual_property_links`. -/
structure MLink where
  linkId : String
  listingId : String
  linkedListingId : String
  createdBy : Option String := none
  createdAt : ℤ := 0
deriving DecidableEq, Repr

/-- The store. -/
structure Store where
  listings : List DbListing
  manualLinks : List MLink := []
deriving DecidableEq, Repr

/-- `published_at || created_at || 0` with JS falsiness. -/
def jsDate (r : DbListing) : ℤ :=
  jsOrZero (jsOrI r.publishedAt r.createdAt)

/-- `markListingAsSuperseded` (`listingsStorage.js`): set `is_superseded = 1`
on the row with the given id; no-op on a falsy id. -/
def markListingAsSuperseded (s : Store) (listingId : String) : Store :=
  if listingId = "" then s
  else
    { s with listings := s.listings.map (fun r =>
        if r.dbId = listingId then { r with isSuperseded := true } else r) }

/-- `UPDATE listings SET is_superseded = 0 WHERE id = @id`. -/
def clearSuperseded (s : Store) (listingId : String) : Store :=
  { s with listings := s.listings.map (fun r =>
      if r.dbId = listingId then { r with isSuperseded := false } else r) }

/-- `UPDATE listings SET previous_version_id = @olderId WHERE id = @newerId`. -/
def setPreviousVersion (s : Store) (newerId : String) (olderId : Option String) : Store :=
  { s with listings := s.listings.map (fun r =>
      if r.dbId = newerId then { r with previousVersionId := olderId } else r) }

/-- `UPDATE listings SET change_set = @changeSet WHERE id = @id`. -/
def setChangeSet (s : Store) (listingId : String) (cs : ChangeSet) : Store :=
  { s with listings := s.listings.map (fun r =>
      if r.dbId = listingId then { r with changeSet := some cs } else r) }

/-- Comparison of optional `created_at` values with SQL NULLs sorting last
under `ORDER BY created_at DESC`. -/
def createdAfter (a b : Option ℤ) : Bool :=
  match a, b with
  | none, _ => false
  | some _, none => true
  | some x, some y => decide (x > y)

/-- `ORDER BY created_at DESC LIMIT 1` over a filtered row list: the first
row (in table order) among those with maximal `created_at`; ties are
unspecified in SQLite and modelled as table order. -/
def pickNewest (rows : List DbListing) : Option DbListing :=
  rows.foldl (fun best r =>
    match best with
    | none => some r
    | some b => if createdAfter r.createdAt b.createdAt then some r else some b) none

/-- `findListingByPropertyIdentity` (`listingsExtendedStorage.js`). -/
def findListingByPropertyIdentity (s : Store) (propertyIdentity : String)
    (excludeHash : Option String) : Option DbListing :=
  if propertyIdentity = "" then none
  else
    pickNewest (s.listings.filter (fun r =>
      r.propertyIdentity = some propertyIdentity ∧
        (¬strTruthy excludeHash ∨ r.hash ≠ excludeHash.getD "")))

/-- `findListingsByFuzzyIdentities`, at one identity: the most recent
non-deleted row carrying it. -/
def findByFuzzyIdentity (s : Store) (identity : String) : Option DbListing :=
  pickNewest (s.listings.filter (fun r =>
    r.fuzzyIdentity = some identity ∧ r.manuallyDeleted = false))

/-! ## `lib/services/versioning/versionDetector.js` -/

namespace VersionDetector

/-- `parsePrice` (version detector): numbers pass through; strings are
cleaned (dots removed, first comma to dot); `NaN` gives null (no
positivity check in this copy). -/
def parsePrice : FieldVal → Option ℚ
  | .fvNull => none
  | .fvNum q => some q
  | .fvStr s => Js.parseFloatCore (Js.replaceFirstComma (Js.removeDots s.data))

def fvOfOpt : Option ℚ → FieldVal
  | none => .fvNull
  | some q => .fvNum q

/-- The ascending date order of `priceHistory.sort((a, b) => a.date - b.date)`
(a stable sort). -/
def dateLe (a b : PriceEntry) : Prop := a.date ≤ b.date

instance : DecidableRel dateLe := fun a b => inferInstanceAs (Decidable (a.date ≤ b.date))

instance : IsTotal PriceEntry dateLe := ⟨fun a b => le_total a.date b.date⟩

instance : IsTrans PriceEntry dateLe := ⟨fun _ _ _ h1 h2 => le_trans h1 h2⟩

/-- The price-history block shared by `detectVersion` and
`linkListingToExisting`: append the predecessor's `(created_at, price)`
entry unless one with that date exists, append the `(now, current)` entry
(`detectVersion` appends it even for a null price, `linkListingToExisting`
only for a known one — the `guardCurrent` flag), then sort ascending by
date. -/
def mergePriceHistory (ph : List PriceEntry) (existingCreatedAt : Option ℤ)
    (existingPrice : FieldVal) (now : ℤ) (currentPrice : Option ℚ)
    (guardCurrent : Bool) : List PriceEntry :=
  let ph :=
    if intTruthy existingCreatedAt ∧ existingPrice ≠ .fvNull then
      if (ph.find? (fun e => e.date = existingCreatedAt.getD 0)).isNone then
        ph ++ [{ date := existingCreatedAt.getD 0, price := existingPrice }]
      else ph
    else ph
  let ph :=
    if guardCurrent ∧ currentPrice = none then ph
    else ph ++ [{ date := now, price := fvOfOpt currentPrice }]
  ph.insertionSort dateLe

/-- `detectVersion`: compute the strict identity, link to the newest stored
listing with the same identity (excluding the listing's own hash) and merge
the price history. -/
def detectVersion (l : Listing) (s : Store) (now : ℤ) : Listing :=
  match PropertyIdentity.computePropertyIdentity l with
  | none => l
  | some pid =>
    let l := { l with propertyIdentity := some pid }
    match findListingByPropertyIdentity s pid l.id with
    | none => l
    | some existing =>
      let currentPrice := parsePrice l.price
      let l := { l with previousVersionId := some existing.dbId }
      let cs := l.changeSet.getD {}
      let ph := cs.priceHistory.getD []
      let ph := mergePriceHistory ph existing.createdAt existing.price now currentPrice false
      { l with changeSet := some { cs with priceHistory := some ph } }

/-- `linkListingToExisting`, the listing part: set `previousVersionId` to
the existing row and merge the price history (the caller also marks the
existing row superseded in the store). -/
def linkListingToExisting (l : Listing) (existing : DbListing) (now : ℤ) : Listing :=
  let currentPrice := parsePrice l.price
  let l := { l with previousVersionId := some existing.dbId }
  let cs := l.changeSet.getD {}
  let ph := cs.priceHistory.getD []
  let ph := mergePriceHistory ph existing.createdAt existing.price now currentPrice true
  { l with changeSet := some { cs with priceHistory := some ph } }

/-- Replace the element at index `i`. -/
def updateAt (i : ℕ) (f : α → α) : List α → List α
  | [] => []
  | x :: xs =>
    match i with
    | 0 => f x :: xs
    | n + 1 => x :: updateAt n f xs

/-- The distinct fuzzy identities in first-occurrence order — the key order
of the `groupByFuzzyIdentity` map. -/
def groupKeys (ids : List (Option String)) : List String :=
  ids.foldl (fun acc o =>
    match o with
    | none => acc
    | some k => if acc.contains k then acc else acc ++ [k]) []

/-- The indices of the batch listings carrying identity `k`, in batch order —
one bucket of the `groupByFuzzyIdentity` map. -/
def groupIdx (ids : List (Option String)) (k : String) : List ℕ :=
  ((List.range ids.length).filter (fun j => ids.getD j none = some k))

/-- The descending `publishedAt || 0` order used on each group (the JS sort
is stable; ties keep batch order). -/
def pubDesc (dateOf : ℕ → ℤ) (i j : ℕ) : Prop :=
  dateOf j ≤ dateOf i

instance (dateOf : ℕ → ℤ) : DecidableRel (pubDesc dateOf) := fun i j =>
  inferInstanceAs (Decidable (dateOf j ≤ dateOf i))

instance (dateOf : ℕ → ℤ) : IsTotal ℕ (pubDesc dateOf) :=
  ⟨fun i j => le_total (dateOf j) (dateOf i)⟩

instance (dateOf : ℕ → ℤ) : IsTrans ℕ (pubDesc dateOf) :=
  ⟨fun _ _ _ h1 h2 => le_trans h2 h1⟩

/-- The newest-first processing order of one fuzzy-identity group: its batch
indices sorted descending by `publishedAt || 0`. -/
def chainOrder (ls1 : List Listing) (k : String) : List ℕ :=
  (groupIdx (ls1.map (·.fuzzyIdentity)) k).insertionSort
    (pubDesc (fun j => jsOrZero ((ls1.getD j {}).publishedAt)))

/-- The marker pass over a group of size over 1: each listing except the
oldest gets `_batchPreviousHash` set to its immediate successor's `id` in
the newest-first chain order. -/
def batchMarkedArr (ls1 : List Listing) (k : String) (arr : List Listing) : List Listing :=
  let sorted := chainOrder ls1 k
  (List.range (sorted.length - 1)).foldl (fun arr i =>
    updateAt (sorted.getD i 0)
      (fun l => { l with batchPreviousHash := (ls1.getD (sorted.getD (i + 1) 0) {}).id })
      arr) arr

/-- Processing of one fuzzy-identity group inside
`detectVersionsWithBatchAwareness`: a single listing is linked to its DB
match; a larger group is sorted newest-first, chained by `_batchPreviousHash`
markers (each marker holds the successor's `id`, which in this pipeline is
the provider hash), and its oldest member is linked to the DB match. -/
def processGroup (ls1 : List Listing) (now : ℤ) (st : List Listing × Store) (k : String) :
    List Listing × Store :=
  let (arr, s) := st
  let idxs := groupIdx (ls1.map (·.fuzzyIdentity)) k
  let dbM := findByFuzzyIdentity s k
  match idxs with
  | [] => (arr, s)
  | [j] =>
    match dbM with
    | some m => (updateAt j (fun l => linkListingToExisting l m now) arr, markListingAsSuperseded s m.dbId)
    | none => (arr, s)
  | _ =>
    let sorted := chainOrder ls1 k
    let arr := batchMarkedArr ls1 k arr
    let oldestIdx := sorted.getLastD 0
    match dbM with
    | some m =>
      (updateAt oldestIdx (fun l => linkListingToExisting l m now) arr,
       markListingAsSuperseded s m.dbId)
    | none => (arr, s)

/-- `detectVersionsWithBatchAwareness`: compute both identities for every
batch listing, group by fuzzy identity, chain each larger group
newest-first with transient markers, link group ends to the newest stored
match (marking it superseded), and run the strict single-listing path on
listings without a fuzzy identity. -/
def detectVersionsWithBatchAwareness (ls : List Listing) (s : Store) (now : ℤ) :
    List Listing × Store :=
  if ls.isEmpty then (ls, s)
  else
    let ls1 := ls.map (fun l =>
      { l with fuzzyIdentity := FuzzyMatcher.computeFuzzyIdentity l
               propertyIdentity := PropertyIdentity.computePropertyIdentity l })
    let keys := groupKeys (ls1.map (·.fuzzyIdentity))
    let (arr, s2) := keys.foldl (processGroup ls1 now) (ls1, s)
    (arr.map (fun l => if ¬strTruthy l.fuzzyIdentity then detectVersion l s2 now else l), s2)

end VersionDetector

/-! ## `lib/services/similarity/enhancedSimilarityScorer.js` (manual links part) -/

namespace ManualLinks

/-- `parsePrice` (manual links copy, identical to the version detector's). -/
def parsePrice : FieldVal → Option ℚ
  | .fvNull => none
  | .fvNum q => some q
  | .fvStr s => Js.parseFloatCore (Js.replaceFirstComma (Js.removeDots s.data))

/-- `getListingByIdOrHash`: `WHERE id = @idOrHash OR hash = @idOrHash`,
first row in table order. -/
def getListingByIdOrHash (s : Store) (idOrHash : String) : Option DbListing :=
  s.listings.find? (fun r => r.dbId = idOrHash ∨ r.hash = idOrHash)

def queryListingById (s : Store) (id : String) : Option DbListing :=
  s.listings.find? (fun r => r.dbId = id)

/-- The ids pushed while processing `cur` in the chain walks: the truthy
`previous_version_id`, the rows pointing to `cur`, and the manual-link
partners; nothing when `cur` has no row (the loop `continue`s). -/
def neighbors (s : Store) (cur : String) : List String :=
  match queryListingById s cur with
  | none => []
  | some l =>
    (match l.previousVersionId with
     | some p => if p ≠ "" then [p] else []
     | none => []) ++
    (s.listings.filter (fun r => r.previousVersionId = some cur)).map (·.dbId) ++
    (s.manualLinks.filter (fun lk => lk.listingId = cur ∨ lk.linkedListingId = cur)).map
      (fun lk => if lk.listingId = cur then lk.linkedListingId else lk.listingId)

/-- The BFS worklist loop shared by `findChainHead` (`excl = none`) and
`getChainIdsExcluding` (`excl = some excludeId`): pop, skip visited (and the
excluded id), record, push the unvisited non-excluded neighbors.  The queue
discipline and push guards follow the source loop; the fuel only bounds the
iteration count and is chosen large enough to drain the queue. -/
def bfsLoop (s : Store) (excl : Option String) :
    Nat → List String → List String → List String
  | 0, _, visited => visited
  | fuel + 1, queue, visited =>
    match queue with
    | [] => visited
    | cur :: rest =>
      if visited.contains cur ∨ excl = some cur then
        bfsLoop s excl fuel rest visited
      else
        let visited2 := visited ++ [cur]
        let pushes := (neighbors s cur).filter (fun x =>
          ¬visited2.contains x ∧ excl ≠ some x)
        bfsLoop s excl fuel (rest ++ pushes) visited2

/-- A bound on the number of ids any single node can push. -/
def pushBound (s : Store) : ℕ :=
  1 + s.listings.length + s.manualLinks.length

/-- Every id the walk can ever see. -/
def idUniverse (s : Store) (start : String) : List String :=
  start :: s.listings.flatMap (fun r =>
    r.dbId :: (match r.previousVersionId with | some p => [p] | none => [])) ++
  s.manualLinks.flatMap (fun lk => [lk.listingId, lk.linkedListingId])

/-- Fuel that provably drains the queue. -/
def bfsFuel (s : Store) (start : String) : ℕ :=
  1 + (pushBound s + 1) * ((idUniverse s start).dedup.length + 1)

/-- The visited set of the chain walk from `start`. -/
def chainIds (s : Store) (start : String) (excl : Option String) : List String :=
  bfsLoop s excl (bfsFuel s start) [start] []

/-- `findChainHead`: walk the whole connected component, fetch its rows, and
pick the row with the latest `published_at || created_at || 0` (the first
such row in table order). -/
def findChainHead (s : Store) (startingId : String) : Option DbListing × List DbListing :=
  let visited := chainIds s startingId none
  let allInChain := s.listings.filter (fun r => visited.contains r.dbId)
  match allInChain with
  | [] => (none, [])
  | h :: _ =>
    (some (allInChain.foldl (fun best l => if jsDate l > jsDate best then l else best) h),
     allInChain)

/-- `getChainIdsExcluding`. -/
def getChainIdsExcluding (s : Store) (startingId excludeId : String) : List String :=
  bfsLoop s (some excludeId) (bfsFuel s startingId) [startingId] []

/-- `updatePriceHistory`: merge the older listing's and the newer listing's
`(date, price)` entries into the newer listing's stored `priceHistory`
(each skipped when its date is falsy, its price unparsable, or an entry with
its date already exists), sort ascending, and write the result to the
newer row.  The `newer`/`older` arguments are the caller's captured row
objects, not re-reads of the store. -/
def mergedManualHistory (newer older : DbListing) : List PriceEntry :=
  let ph : List PriceEntry := (newer.changeSet.getD {}).priceHistory.getD []
  let olderDate := jsOrI older.publishedAt older.createdAt
  let ph : List PriceEntry :=
    match parsePrice older.price with
    | some p =>
      if intTruthy olderDate ∧ (ph.find? (fun e => e.date = olderDate.getD 0)).isNone then
        ph ++ [{ date := olderDate.getD 0, price := .fvNum p }]
      else ph
    | none => ph
  let newerDate := jsOrI newer.publishedAt newer.createdAt
  let ph : List PriceEntry :=
    match parsePrice newer.price with
    | some p =>
      if intTruthy newerDate ∧ (ph.find? (fun e => e.date = newerDate.getD 0)).isNone then
        ph ++ [{ date := newerDate.getD 0, price := .fvNum p }]
      else ph
    | none => ph
  ph.insertionSort VersionDetector.dateLe

def updatePriceHistory (s : Store) (newer older : DbListing) : Store :=
  setChangeSet s newer.dbId
    { newer.changeSet.getD {} with priceHistory := some (mergedManualHistory newer older) }

/-- The chain-head resolution phase of `createManualLink`: mark every walked
chain member except the head superseded, clear the head, then refresh the
head's price history from every other member. -/
def supersedeChain (s : Store) (headListing : DbListing) (allInChain : List DbListing) :
    Store :=
  let s := allInChain.foldl (fun s cl =>
    if cl.dbId ≠ headListing.dbId then markListingAsSuperseded s cl.dbId else s) s
  let s := clearSuperseded s headListing.dbId
  match queryListingById s headListing.dbId with
  | some freshHead =>
    allInChain.foldl (fun s cl =>
      if cl.dbId ≠ freshHead.dbId then updatePriceHistory s freshHead cl else s) s
  | none => s

/-- A result object of the manual-link operations; absent JS fields are
`none`. -/
structure OpResult where
  success : Bool
  error : Option String := none
  linkId : Option String := none
  alreadyExists : Option Bool := none
  removed : Option Bool := none
deriving DecidableEq, Repr

/-- `Number(a) <= Number(b)` on the id strings (false when either coerces
to NaN). -/
def numLe (a b : String) : Bool :=
  match Js.numberOfString a.data, Js.numberOfString b.data with
  | some x, some y => decide (x ≤ y)
  | _, _ => false

/-- `createManualLink`.  `linkId` stands for the generated random link id
and `now` for `Date.now()`. -/
def createManualLink (s : Store) (listingId linkedListingId : String)
    (userId : Option String) (linkId : String) (now : ℤ) : OpResult × Store :=
  if listingId = "" ∨ linkedListingId = "" then
    ({ success := false, error := some "Both listing IDs are required" }, s)
  else if listingId = linkedListingId then
    ({ success := false, error := some "Cannot link a listing to itself" }, s)
  else
    match getListingByIdOrHash s listingId, getListingByIdOrHash s linkedListingId with
    | some listing1, some listing2 =>
      let (firstL, secondL) :=
        if numLe listing1.dbId listing2.dbId then (listing1, listing2) else (listing2, listing1)
      let first := firstL.dbId
      let second := secondL.dbId
      match s.manualLinks.find? (fun lk => lk.listingId = first ∧ lk.linkedListingId = second) with
      | some existing =>
        ({ success := true, linkId := some existing.linkId, alreadyExists := some true }, s)
      | none =>
        let s := { s with manualLinks := s.manualLinks ++
          [{ linkId := linkId, listingId := first, linkedListingId := second,
             createdBy := userId, createdAt := now }] }
        let date1 := jsDate listing1
        let date2 := jsDate listing2
        let (newerOfPair, olderOfPair) :=
          if date1 ≥ date2 then (listing1, listing2) else (listing2, listing1)
        let s :=
          if ¬strTruthy newerOfPair.previousVersionId then
            setPreviousVersion s newerOfPair.dbId (some olderOfPair.dbId)
          else s
        match findChainHead s listing1.dbId with
        | (some headListing, allInChain) =>
          ({ success := true, linkId := some linkId }, supersedeChain s headListing allInChain)
        | (none, _) =>
          let s := markListingAsSuperseded s olderOfPair.dbId
          let s := updatePriceHistory s newerOfPair olderOfPair
          ({ success := true, linkId := some linkId }, s)
    | _, _ => ({ success := false, error := some "One or both listings not found" }, s)

/-- The other endpoint of a manual link. -/
def otherEnd (lk : MLink) (id : String) : String :=
  if lk.listingId = id then lk.linkedListingId else lk.listingId

/-- `removeManualLink`: delete the direct canonical edge, or failing that
the manual link bridging `listing2` into `listing1`'s chain; afterwards
detach `listing2` (clear its `previous_version_id` when it points into the
remaining chain) and un-supersede it.  With missing listings it returns
`success:false, removed:false` — without an `error` field. -/
def removeManualLink (s : Store) (listingId linkedListingId : String) : OpResult × Store :=
  if listingId = "" ∨ linkedListingId = "" then
    ({ success := false, error := some "Both listing IDs are required" }, s)
  else
    match getListingByIdOrHash s listingId, getListingByIdOrHash s linkedListingId with
    | some listing1, some listing2 =>
      let (firstL, secondL) :=
        if numLe listing1.dbId listing2.dbId then (listing1, listing2) else (listing2, listing1)
      let first := firstL.dbId
      let second := secondL.dbId
      let remaining := s.manualLinks.filter (fun lk =>
        ¬(lk.listingId = first ∧ lk.linkedListingId = second))
      let changes1 := s.manualLinks.length - remaining.length
      let s1 := { s with manualLinks := remaining }
      let (changes, s2) :=
        if changes1 = 0 then
          let chain1Ids := getChainIdsExcluding s1 listing1.dbId listing2.dbId
          let cands := s1.manualLinks.filter (fun lk =>
            lk.listingId = listing2.dbId ∨ lk.linkedListingId = listing2.dbId)
          match cands.find? (fun lk => chain1Ids.contains (otherEnd lk listing2.dbId)) with
          | some lk =>
            let remaining2 := s1.manualLinks.filter (fun l => l.linkId ≠ lk.linkId)
            (s1.manualLinks.length - remaining2.length, { s1 with manualLinks := remaining2 })
          | none => (0, s1)
        else (changes1, s1)
      if changes > 0 then
        let fresh2 := getListingByIdOrHash s2 listing2.dbId
        let prevId2 := fresh2.bind (·.previousVersionId)
        let s3 :=
          if strTruthy prevId2 then
            let chain1Ids := getChainIdsExcluding s2 listing1.dbId listing2.dbId
            if chain1Ids.contains (prevId2.getD "") then
              setPreviousVersion s2 listing2.dbId none
            else s2
          else s2
        let s4 := clearSuperseded s3 listing2.dbId
        ({ success := true, removed := some true }, s4)
      else
        ({ success := true, removed := some false }, s2)
    | _, _ => ({ success := false, removed := some false }, s)

end ManualLinks

/-! ## Specification-side definitions

Definitions in this section are written from the claims' words (for
refinement-style comparisons with the code-side definitions above), plus
derived notions the claims quantify over. -/

/-- One step of the version graph: `b` is reachable from `a` in one
expansion of the chain walk (via `previous_version_id` in either direction
or a manual link; only nodes with a row expand). -/
def chainStep (s : Store) (a b : String) : Prop :=
  b ∈ ManualLinks.neighbors s a

instance (s : Store) : DecidableRel (chainStep s) := fun a b =>
  inferInstanceAs (Decidable (b ∈ ManualLinks.neighbors s a))

/-- Connectivity in the version graph (the connected component relation used
by the chain-invariant claim). -/
def chainConn (s : Store) (a b : String) : Prop :=
  Relation.ReflTransGen (chainStep s) a b

/-- The six identifying factors of the fuzzy identity, counted as the claim
counts them: rounded geo cell, ZIP code, house number, size bucket, exact
room count, price bucket. -/
def factorCount (l : Listing) : ℕ :=
  (if FuzzyMatcher.hasValidCoordinates l.latitude l.longitude then 1 else 0) +
  (match FuzzyMatcher.extractZipCode l.address with | some _ => 1 | none => 0) +
  (match FuzzyMatcher.extractHouseNumber l.address with | some _ => 1 | none => 0) +
  (match FuzzyMatcher.computeSizeBucket l.size with | some _ => 1 | none => 0) +
  (if FuzzyMatcher.roomsTruthyPos l.rooms then 1 else 0) +
  (match FuzzyMatcher.computePriceBucket l.price with | some _ => 1 | none => 0)

/-- The dates of a price history. -/
def datesOf (ph : List PriceEntry) : List ℤ :=
  ph.map (·.date)

/-- No two entries share a date. -/
def uniqueDates (ph : List PriceEntry) : Prop :=
  (datesOf ph).Nodup

/-- Entries are sorted ascending by date. -/
def sortedDates (ph : List PriceEntry) : Prop :=
  List.Sorted (· ≤ ·) (datesOf ph)

/-- The supersession flags of a store, row by row. -/
def flagsOf (s : Store) : List (String × Bool) :=
  s.listings.map (fun r => (r.dbId, r.isSuperseded))

instance (ph : List PriceEntry) : Decidable (uniqueDates ph) :=
  inferInstanceAs (Decidable (datesOf ph).Nodup)

instance (ph : List PriceEntry) : Decidable (sortedDates ph) :=
  inferInstanceAs (Decidable (List.Sorted (· ≤ ·) (datesOf ph)))

/-- The claim's relative difference of two quantities: the absolute
difference over the average. -/
def relDiff (a b : ℚ) : ℚ :=
  |a - b| / ((a + b) / 2)

/-- `couldBeSameProperty` as claim C5 words it: an immediate match on a
shared non-empty hash; otherwise a rejection disjunction (size, rooms,
price, ZIP conflict, house-number conflict, far-apart coordinates), then
acceptance within 30 m, and fuzzy-identity equality as the remaining
tiebreaker. -/
def specSizeReject (l1 l2 : Listing) : Bool :=
  match FuzzyMatcher.parseSize l1.size, FuzzyMatcher.parseSize l2.size with
  | some s1, some s2 => decide (relDiff s1 s2 > 1 / 20)
  | _, _ => true

def specRoomReject (l1 l2 : Listing) : Bool :=
  l1.rooms = .fvNull || l2.rooms = .fvNull || l1.rooms ≠ l2.rooms

def specPriceReject (l1 l2 : Listing) : Bool :=
  match FuzzyMatcher.parsePrice l1.price, FuzzyMatcher.parsePrice l2.price with
  | some p1, some p2 => decide (relDiff p1 p2 > 1 / 20)
  | _, _ => true

def specZipConflict (l1 l2 : Listing) : Bool :=
  match FuzzyMatcher.extractZipCode l1.address, FuzzyMatcher.extractZipCode l2.address with
  | some z1, some z2 => z1 ≠ z2
  | _, _ => false

def specHnConflict (l1 l2 : Listing) : Bool :=
  match FuzzyMatcher.extractHouseNumber l1.address, FuzzyMatcher.extractHouseNumber l2.address with
  | some h1, some h2 => h1 ≠ h2
  | _, _ => false

def specBothGeo (l1 l2 : Listing) : Bool :=
  FuzzyMatcher.hasValidCoordinates l1.latitude l1.longitude &&
    FuzzyMatcher.hasValidCoordinates l2.latitude l2.longitude

def specDist (hav : ℚ → ℚ → ℚ → ℚ → ℚ) (l1 l2 : Listing) : ℚ :=
  hav (FuzzyMatcher.numOf l1.latitude) (FuzzyMatcher.numOf l1.longitude)
    (FuzzyMatcher.numOf l2.latitude) (FuzzyMatcher.numOf l2.longitude)

def specFuzzyEqual (l1 l2 : Listing) : Bool :=
  match FuzzyMatcher.computeFuzzyIdentity l1, FuzzyMatcher.computeFuzzyIdentity l2 with
  | some i1, some i2 => i1 = i2
  | _, _ => false

def specSameProperty (hav : ℚ → ℚ → ℚ → ℚ → ℚ) (l1 l2 : Listing) : Bool :=
  if strTruthy l1.hash && strTruthy l2.hash && l1.hash = l2.hash then true
  else if specSizeReject l1 l2 || specRoomReject l1 l2 || specPriceReject l1 l2 ||
      specZipConflict l1 l2 || specHnConflict l1 l2 ||
      (specBothGeo l1 l2 && decide (specDist hav l1 l2 > 200)) then
    false
  else if specBothGeo l1 l2 && decide (specDist hav l1 l2 ≤ 30) then true
  else specFuzzyEqual l1 l2

/-- Positivity of the parsed size and price of a listing, when present (the
claims speak about genuine listing data, whose sizes and prices are
positive; the JS code meets non-positive values only through number-typed
fields). -/
def posParsed (l : Listing) : Bool :=
  (match FuzzyMatcher.parseSize l.size with
   | some q => decide (0 < q)
   | none => true) &&
  (match FuzzyMatcher.parsePrice l.price with
   | some q => decide (0 < q)
   | none => true)

/-! ### Concrete instances used by counterexamples and witnesses -/

/-- A distance oracle for witnesses (any fixed function works, the theorems
quantify over it). -/
def havZero : ℚ → ℚ → ℚ → ℚ → ℚ := fun _ _ _ _ => 0

/-- Two listings whose addresses differ only in the order of their
whitespace-separated tokens. -/
def listingFooBar : Listing := { address := some "foo bar" }

def listingBarFoo : Listing := { address := some "bar foo" }

/-- Token order changes which factors the fuzzy identity can extract: with
the ZIP first there is no preceding whitespace, so no house number is
found. -/
def listingStreetZip : Listing :=
  { address := some "Musterstrasse 10115", size := .fvNum 70, rooms := .fvNum 3,
    price := .fvNum 1000 }

def listingZipStreet : Listing :=
  { address := some "10115 Musterstrasse", size := .fvNum 70, rooms := .fvNum 3,
    price := .fvNum 1000 }

/-- The store of the chain-invariant counterexample: listing "2" carries an
automatic version link to listing "1", and the two are additionally joined
by a manual link; the invariant holds ("1" superseded, "2" the head). -/
def cexRow1 : DbListing :=
  { dbId := "1", hash := "ha", isSuperseded := true, createdAt := some 10 }

def cexRow2 : DbListing :=
  { dbId := "2", hash := "hb", previousVersionId := some "1", createdAt := some 20 }

def cexRemoveStore : Store :=
  { listings := [cexRow1, cexRow2],
    manualLinks := [{ linkId := "L1", listingId := "1", linkedListingId := "2" }] }

/-- Removing the manual link between "2" and "1" in that store. -/
def cexRemoveOut : ManualLinks.OpResult × Store :=
  ManualLinks.removeManualLink cexRemoveStore "2" "1"

/-- A batch listing of the scenario-B batch: all identity factors agree, the
provider hash (`id`) and `publishedAt` vary. -/
def batchListing (h : String) (p : ℤ) : Listing :=
  { id := some h, address := some "Musterstrasse 12, 10115 Berlin", size := .fvNum 70,
    rooms := .fvNum 3, price := .fvNum 1200, publishedAt := some p }

/-- A pre-existing stored listing with the same fuzzy identity. -/
def scenarioDbRow : DbListing :=
  { dbId := "db9", hash := "oldhash", price := .fvNum 1100, createdAt := some 50,
    fuzzyIdentity := FuzzyMatcher.computeFuzzyIdentity (batchListing "x" 0) }

def scenarioStore : Store := { listings := [scenarioDbRow] }

/-- Scenario B: the batch `[100, 300, 200]` run against that store. -/
def scenarioOut : List Listing × Store :=
  VersionDetector.detectVersionsWithBatchAwareness
    [batchListing "h100" 100, batchListing "h300" 300, batchListing "h200" 200]
    scenarioStore 77

/-- The price-history counterexample: a predecessor created in the same
millisecond in which the link operation runs. -/
def cexLinkListing : Listing := { id := some "h1", price := .fvNum 120 }

def cexLinkExisting : DbListing := { dbId := "db1", price := .fvNum 100, createdAt := some 77 }

def cexLinkOut : Listing :=
  VersionDetector.linkListingToExisting cexLinkListing cexLinkExisting 77

/-- An empty store: every lookup fails. -/
def emptyStore : Store := { listings := [], manualLinks := [] }

/-- A two-listing batch with a shared fuzzy-identity field, for the batch
chain witness. -/
def c6L : List Listing :=
  [{ id := some "a", fuzzyIdentity := some "k", publishedAt := some 1 },
   { id := some "b", fuzzyIdentity := some "k", publishedAt := some 2 }]

/-- The target of the similarity-search witness. -/
def c7Target : Listing := { id := some "t", hash := some "ht" }

/-- A candidate of the similarity-search witness (distinct id and hash). -/
def c7Cand : Listing := { id := some "c", hash := some "hc" }

/-! ## Helper lemmas -/

theorem jsRound_eq_floor (q : ℚ) : Js.jsRound q = ⌊q + 1 / 2⌋ := by
  unfold Js.jsRound
  rw [Rat.floor_def', ← Rat.floor_def]

theorem jsRound_intCast (n : ℤ) : Js.jsRound (n : ℚ) = n := by
  rw [jsRound_eq_floor, add_comm, Int.floor_add_int]
  norm_num

theorem jsRound_mono {a b : ℚ} (h : a ≤ b) : Js.jsRound a ≤ Js.jsRound b := by
  rw [jsRound_eq_floor, jsRound_eq_floor]
  exact Int.floor_mono (by linarith)

theorem jsRound_nonneg {q : ℚ} (h : 0 ≤ q) : 0 ≤ Js.jsRound q := by
  have := jsRound_mono h
  rwa [show Js.jsRound 0 = (0 : ℤ) from jsRound_intCast 0] at this

theorem jsRound_le_int {q : ℚ} {n : ℤ} (h : q ≤ (n : ℚ)) : Js.jsRound q ≤ n := by
  have := jsRound_mono h
  rwa [jsRound_intCast] at this

theorem fuzzyStringMatch_bounds (a b : List Char) :
    0 ≤ AddressNormalizer.fuzzyStringMatch a b ∧ AddressNormalizer.fuzzyStringMatch a b ≤ 1 := by
  unfold AddressNormalizer.fuzzyStringMatch
  split_ifs with h1 h2 h3 h4
  · exact ⟨le_refl 0, by norm_num⟩
  · exact ⟨by norm_num, le_refl 1⟩
  · -- containment ratio
    have ha : a ≠ [] := by
      intro hn
      exact h1 (Or.inl (by simp [hn]))
    have h1a : 1 ≤ (Js.toLower a).length := by
      have := List.length_pos.mpr ha
      simpa [Js.toLower] using this
    have hmax : (0 : ℚ) < max ((Js.toLower a).length : ℚ) ((Js.toLower b).length : ℚ) :=
      lt_of_lt_of_le zero_lt_one (le_trans (by exact_mod_cast h1a) (le_max_left _ _))
    constructor
    · exact div_nonneg (le_min (by positivity) (by positivity)) hmax.le
    · rw [div_le_one hmax]
      exact min_le_max
  · -- token ratio
    have hmatched : (AddressNormalizer.matchedTokens (Js.toLower a) (Js.toLower b) : ℚ) ≤
        max ((Js.splitWs (Js.toLower a)).length : ℚ) ((Js.splitWs (Js.toLower b)).length : ℚ) := by
      refine le_trans ?_ (le_max_left _ _)
      exact_mod_cast List.length_filter_le _ _
    have htot : (0 : ℚ) <
        max ((Js.splitWs (Js.toLower a)).length : ℚ) ((Js.splitWs (Js.toLower b)).length : ℚ) := by
      have h0 : (0 : ℚ) <
          ((max (Js.splitWs (Js.toLower a)).length (Js.splitWs (Js.toLower b)).length : ℕ) : ℚ) := by
        exact_mod_cast h4
      rwa [Nat.cast_max] at h0
    constructor
    · exact div_nonneg (by positivity) htot.le
    · rw [div_le_one htot]
      exact hmatched
  · exact ⟨le_refl 0, by norm_num⟩

theorem zipPoints_bounds (p1 p2 : AddressNormalizer.ParsedAddress) :
    0 ≤ AddressNormalizer.zipPoints p1 p2 ∧ AddressNormalizer.zipPoints p1 p2 ≤ 25 := by
  unfold AddressNormalizer.zipPoints
  rcases p1.zipCode with _ | z1 <;> rcases p2.zipCode with _ | z2 <;> simp <;> split_ifs <;> omega

theorem cityPoints_bounds (p1 p2 : AddressNormalizer.ParsedAddress) :
    0 ≤ AddressNormalizer.cityPoints p1 p2 ∧ AddressNormalizer.cityPoints p1 p2 ≤ 15 := by
  unfold AddressNormalizer.cityPoints
  rcases p1.city with _ | c1 <;> rcases p2.city with _ | c2 <;> simp <;> split_ifs <;> omega

theorem streetPoints_bounds (p1 p2 : AddressNormalizer.ParsedAddress) :
    0 ≤ AddressNormalizer.streetPoints p1 p2 ∧ AddressNormalizer.streetPoints p1 p2 ≤ 40 := by
  unfold AddressNormalizer.streetPoints AddressNormalizer.streetScoreOpt
  rcases p1.street with _ | s1 <;> rcases p2.street with _ | s2
  · exact ⟨le_refl 0, by norm_num⟩
  · exact ⟨le_refl 0, by norm_num⟩
  · exact ⟨le_refl 0, by norm_num⟩
  · obtain ⟨hge, hle⟩ := fuzzyStringMatch_bounds s1.data s2.data
    constructor
    · exact jsRound_nonneg (by positivity)
    · exact jsRound_le_int
        (show AddressNormalizer.fuzzyStringMatch s1.data s2.data * 40 ≤ ((40 : ℤ) : ℚ) by
          push_cast
          nlinarith)

theorem houseNumberResult_bounds (p1 p2 : AddressNormalizer.ParsedAddress) :
    0 ≤ (AddressNormalizer.houseNumberResult p1 p2).1 ∧
      (AddressNormalizer.houseNumberResult p1 p2).1 ≤ 20 := by
  unfold AddressNormalizer.houseNumberResult
  rcases p1.houseNumber with _ | h1 <;> rcases p2.houseNumber with _ | h2 <;> simp <;>
    split_ifs <;> simp

theorem compareAddresses_score_bounds (a1 a2 : Option String) :
    0 ≤ (AddressNormalizer.compareAddresses a1 a2).score ∧
      (AddressNormalizer.compareAddresses a1 a2).score ≤ 100 := by
  unfold AddressNormalizer.compareAddresses
  dsimp only
  obtain ⟨hz1, hz2⟩ := zipPoints_bounds (AddressNormalizer.parseAddress a1)
    (AddressNormalizer.parseAddress a2)
  obtain ⟨hc1, hc2⟩ := cityPoints_bounds (AddressNormalizer.parseAddress a1)
    (AddressNormalizer.parseAddress a2)
  obtain ⟨hs1, hs2⟩ := streetPoints_bounds (AddressNormalizer.parseAddress a1)
    (AddressNormalizer.parseAddress a2)
  obtain ⟨hh1, hh2⟩ := houseNumberResult_bounds (AddressNormalizer.parseAddress a1)
    (AddressNormalizer.parseAddress a2)
  constructor <;> omega

theorem jsRound_tier_16 : Js.jsRound (16 : ℚ) = 16 := by
  rw [jsRound_eq_floor]
  norm_num [Int.floor_eq_iff]

theorem jsRound_tier_10 : Js.jsRound (10 : ℚ) = 10 := by
  rw [jsRound_eq_floor]
  norm_num [Int.floor_eq_iff]

theorem jsRound_tier_8 : Js.jsRound (8 : ℚ) = 8 := by
  rw [jsRound_eq_floor]
  norm_num [Int.floor_eq_iff]

theorem jsRound_tier_5 : Js.jsRound (5 : ℚ) = 5 := by
  rw [jsRound_eq_floor]
  norm_num [Int.floor_eq_iff]

theorem addressFactor_bounds (l1 l2 : Listing) :
    0 ≤ (Scorer.calculateAddressScore l1 l2).points ∧
      (Scorer.calculateAddressScore l1 l2).points ≤ 40 := by
  unfold Scorer.calculateAddressScore
  split
  · exact ⟨le_refl 0, by norm_num⟩
  · obtain ⟨hs0, hs100⟩ := compareAddresses_score_bounds l1.address l2.address
    dsimp only
    constructor
    · refine jsRound_nonneg ?_
      have h0 : (0 : ℚ) ≤ ((AddressNormalizer.compareAddresses l1.address l2.address).score : ℚ) := by
        exact_mod_cast hs0
      positivity
    · refine jsRound_le_int ?_
      have h100 : ((AddressNormalizer.compareAddresses l1.address l2.address).score : ℚ) ≤ 100 := by
        exact_mod_cast hs100
      push_cast
      nlinarith

theorem sizeFactor_bounds (l1 l2 : Listing) :
    0 ≤ (Scorer.calculateSizeScore l1 l2).points ∧ (Scorer.calculateSizeScore l1 l2).points ≤ 20 := by
  unfold Scorer.calculateSizeScore
  split
  · dsimp only
    split_ifs <;> constructor <;> norm_num [jsRound_tier_16, jsRound_tier_10]
  · exact ⟨le_refl 0, by norm_num⟩

theorem geoFactor_bounds (hav : ℚ → ℚ → ℚ → ℚ → ℚ) (l1 l2 : Listing) :
    0 ≤ (Scorer.calculateGeoSimilarityScore hav l1 l2).points ∧
      (Scorer.calculateGeoSimilarityScore hav l1 l2).points ≤ 20 := by
  unfold Scorer.calculateGeoSimilarityScore GeoMatcher.calculateGeoScore
  split_ifs with h <;> dsimp only
  · rcases hf : GeoMatcher.proximityThresholds.find? (fun t =>
        GeoMatcher.haversineDistance hav (FuzzyMatcher.numOf l1.latitude)
          (FuzzyMatcher.numOf l1.longitude) (FuzzyMatcher.numOf l2.latitude)
          (FuzzyMatcher.numOf l2.longitude) ≤ t.1) with _ | t
    · simp [hf]
    · have hmem : t ∈ GeoMatcher.proximityThresholds := List.mem_of_find?_eq_some hf
      simp only [hf]
      fin_cases hmem <;> constructor <;> norm_num
  · exact ⟨le_refl 0, by norm_num⟩

theorem roomFactor_bounds (l1 l2 : Listing) :
    0 ≤ (Scorer.calculateRoomScore l1 l2).points ∧ (Scorer.calculateRoomScore l1 l2).points ≤ 10 := by
  unfold Scorer.calculateRoomScore
  split
  · dsimp only
    split_ifs <;> constructor <;> norm_num [jsRound_tier_8, jsRound_tier_5]
  · exact ⟨le_refl 0, by norm_num⟩

theorem priceFactor_bounds (l1 l2 : Listing) :
    0 ≤ (Scorer.calculatePriceScore l1 l2).points ∧
      (Scorer.calculatePriceScore l1 l2).points ≤ 10 := by
  unfold Scorer.calculatePriceScore
  split
  · dsimp only
    split_ifs <;> constructor <;> norm_num [jsRound_tier_8, jsRound_tier_5]
  · exact ⟨le_refl 0, by norm_num⟩

/-! ## Claim theorems -/

/-- C4: for every pair of listings (and any distance core), the similarity
score is between 0 and 100 and equals the sum of the five per-factor point
contributions, each of which is non-negative and bounded by its weight cap
(40 address, 20 size, 20 geo, 10 rooms, 10 price). -/
theorem c4_similarity_score_bounds (hav : ℚ → ℚ → ℚ → ℚ → ℚ) (l1 l2 : Listing) :
    0 ≤ (Scorer.computeSimilarity hav l1 l2).score ∧
    (Scorer.computeSimilarity hav l1 l2).score ≤ 100 ∧
    (Scorer.computeSimilarity hav l1 l2).score =
      (Scorer.computeSimilarity hav l1 l2).factors.address.points +
      (Scorer.computeSimilarity hav l1 l2).factors.size.points +
      (Scorer.computeSimilarity hav l1 l2).factors.geo.points +
      (Scorer.computeSimilarity hav l1 l2).factors.rooms.points +
      (Scorer.computeSimilarity hav l1 l2).factors.price.points ∧
    (0 ≤ (Scorer.computeSimilarity hav l1 l2).factors.address.points ∧
      (Scorer.computeSimilarity hav l1 l2).factors.address.points ≤ Scorer.weightAddress) ∧
    (0 ≤ (Scorer.computeSimilarity hav l1 l2).factors.size.points ∧
      (Scorer.computeSimilarity hav l1 l2).factors.size.points ≤ Scorer.weightSize) ∧
    (0 ≤ (Scorer.computeSimilarity hav l1 l2).factors.geo.points ∧
      (Scorer.computeSimilarity hav l1 l2).factors.geo.points ≤ Scorer.weightGeo) ∧
    (0 ≤ (Scorer.computeSimilarity hav l1 l2).factors.rooms.points ∧
      (Scorer.computeSimilarity hav l1 l2).factors.rooms.points ≤ Scorer.weightRooms) ∧
    (0 ≤ (Scorer.computeSimilarity hav l1 l2).factors.price.points ∧
      (Scorer.computeSimilarity hav l1 l2).factors.price.points ≤ Scorer.weightPrice) := by
  obtain ⟨ha0, ha1⟩ := addressFactor_bounds l1 l2
  obtain ⟨hs0, hs1⟩ := sizeFactor_bounds l1 l2
  obtain ⟨hg0, hg1⟩ := geoFactor_bounds hav l1 l2
  obtain ⟨hr0, hr1⟩ := roomFactor_bounds l1 l2
  obtain ⟨hp0, hp1⟩ := priceFactor_bounds l1 l2
  unfold Scorer.computeSimilarity
  dsimp only
  rw [jsRound_intCast]
  unfold Scorer.weightAddress Scorer.weightSize Scorer.weightGeo Scorer.weightRooms
    Scorer.weightPrice
  refine ⟨by omega, by omega, by omega, ⟨ha0, ha1⟩, ⟨hs0, hs1⟩, ⟨hg0, hg1⟩, ⟨hr0, hr1⟩,
    ⟨hp0, hp1⟩⟩

theorem round_length (st : List ℕ) (kw : ℕ × ℕ) : (Sha256.round st kw).length = st.length := by
  unfold Sha256.round
  split <;> simp_all

theorem foldl_round_length (l : List (ℕ × ℕ)) (st : List ℕ) :
    (l.foldl Sha256.round st).length = st.length := by
  induction l generalizing st with
  | nil => rfl
  | cons x xs ih => rw [List.foldl_cons, ih, round_length]

theorem processBlock_length (h b : List ℕ) (hh : h.length = 8) :
    (Sha256.processBlock h b).length = 8 := by
  unfold Sha256.processBlock
  rw [List.length_map, List.length_zip, foldl_round_length, hh, min_self]

theorem foldl_processBlock_length (bs : List (List ℕ)) (h : List ℕ) (hh : h.length = 8) :
    (bs.foldl Sha256.processBlock h).length = 8 := by
  induction bs generalizing h with
  | nil => exact hh
  | cons x xs ih => exact ih _ (processBlock_length _ _ hh)

theorem flatMap_fixed_length {α β : Type} (f : α → List β) (k : ℕ)
    (hf : ∀ a, (f a).length = k) (l : List α) : (l.flatMap f).length = k * l.length := by
  induction l with
  | nil => simp
  | cons x xs ih =>
    simp only [List.flatMap_cons, List.length_append, hf, ih, List.length_cons]
    ring

theorem digest_length (msg : List ℕ) : (Sha256.digest msg).length = 32 := by
  unfold Sha256.digest
  rw [flatMap_fixed_length
      (fun w => [w >>> 24 % 256, w >>> 16 % 256, w >>> 8 % 256, w % 256]) 4 (fun _ => rfl),
    foldl_processBlock_length _ Sha256.hInit rfl]

theorem hexOfBytes_length (bs : List ℕ) : (Sha256.hexOfBytes bs).length = 2 * bs.length := by
  unfold Sha256.hexOfBytes
  rw [flatMap_fixed_length Sha256.byteHex 2 (fun _ => rfl)]

theorem sha256Hex_length (s : List Char) : (Sha256.sha256Hex s).length = 64 := by
  unfold Sha256.sha256Hex
  rw [hexOfBytes_length, digest_length]

theorem isHexDigit_hexDigit (n : ℕ) (h : n < 16) : Sha256.isHexDigit (Sha256.hexDigit n) = true := by
  interval_cases n <;> decide

theorem mem_sha256Hex_isHex (s : List Char) (c : Char) (hc : c ∈ Sha256.sha256Hex s) :
    Sha256.isHexDigit c = true := by
  unfold Sha256.sha256Hex Sha256.hexOfBytes at hc
  rw [List.mem_flatMap] at hc
  obtain ⟨b, _, hb⟩ := hc
  unfold Sha256.byteHex at hb
  simp only [List.mem_cons, List.not_mem_nil, or_false] at hb
  rcases hb with h | h <;> subst h <;>
    exact isHexDigit_hexDigit _ (Nat.mod_lt _ (by norm_num))

theorem partsHash_spec (parts : List String) :
    (FuzzyMatcher.partsHash parts).length = 16 ∧
      ∀ c ∈ (FuzzyMatcher.partsHash parts).data, Sha256.isHexDigit c = true := by
  unfold FuzzyMatcher.partsHash
  constructor
  · show (String.mk _).length = 16
    simp only [String.length]
    rw [List.length_take, sha256Hex_length]
    omega
  · intro c hc
    simp only [String.mk] at hc
    exact mem_sha256Hex_isHex _ c (List.take_subset _ _ hc)

theorem fuzzyParts_length (l : Listing) : (FuzzyMatcher.fuzzyParts l).length = factorCount l := by
  unfold FuzzyMatcher.fuzzyParts factorCount
  rcases hz : FuzzyMatcher.extractZipCode l.address with _ | z <;>
    rcases hh : FuzzyMatcher.extractHouseNumber l.address with _ | hn <;>
    rcases hs : FuzzyMatcher.computeSizeBucket l.size with _ | sb <;>
    rcases hp : FuzzyMatcher.computePriceBucket l.price with _ | pb <;>
    split_ifs <;> rfl

/-- C3: the fuzzy identity is refused (`null`) exactly when fewer than 4 of
the six factors (geo cell, ZIP, house number, size bucket, exact rooms,
price bucket) are derivable; with at least 4 it is a 16-character hex
identifier. -/
theorem c3_fuzzy_identity_refusal (l : Listing) :
    (factorCount l < 4 → FuzzyMatcher.computeFuzzyIdentity l = none) ∧
    (4 ≤ factorCount l → ∃ s, FuzzyMatcher.computeFuzzyIdentity l = some s ∧
      s.length = 16 ∧ ∀ c ∈ s.data, Sha256.isHexDigit c = true) := by
  constructor
  · intro h
    have hlt : (FuzzyMatcher.fuzzyParts l).length < 4 := by rwa [fuzzyParts_length]
    simp [FuzzyMatcher.computeFuzzyIdentity, hlt]
  · intro h
    have hge : ¬(FuzzyMatcher.fuzzyParts l).length < 4 := by
      rw [fuzzyParts_length]
      omega
    refine ⟨FuzzyMatcher.partsHash (FuzzyMatcher.fuzzyParts l), ?_, (partsHash_spec _).1,
      (partsHash_spec _).2⟩
    simp [FuzzyMatcher.computeFuzzyIdentity, hge]

/-- C3 witness: a listing with 5 derivable factors gets a 16-hex identity. -/
theorem c3_fuzzy_identity_refusal_witness :
    4 ≤ factorCount listingStreetZip ∧
      ∃ s, FuzzyMatcher.computeFuzzyIdentity listingStreetZip = some s ∧
        s.length = 16 ∧ ∀ c ∈ s.data, Sha256.isHexDigit c = true :=
  ⟨by decide, (c3_fuzzy_identity_refusal listingStreetZip).2 (by decide)⟩

/-- C2 counterexample: two address-token permutations with different strict
identities, and two with different fuzzy identities (the rearranged ZIP
loses its leading whitespace, so no house-number factor is extracted). -/
theorem c2_token_order_counterexample :
    (Js.splitWs "foo bar".data).Perm (Js.splitWs "bar foo".data) ∧
    PropertyIdentity.computePropertyIdentity listingFooBar ≠
      PropertyIdentity.computePropertyIdentity listingBarFoo ∧
    (Js.splitWs "Musterstrasse 10115".data).Perm (Js.splitWs "10115 Musterstrasse".data) ∧
    FuzzyMatcher.computeFuzzyIdentity listingStreetZip ≠
      FuzzyMatcher.computeFuzzyIdentity listingZipStreet :=
  ⟨by decide, by decide, by decide, by with_unfolding_all decide⟩

/-- C2 amended: both identity functions are deterministic, and the fuzzy
identity hash is invariant under permutations of its factor parts (they are
sorted before hashing); invariance under permuting the address's
whitespace-separated tokens does not hold (see the counterexample). -/
theorem c2_identity_determinism_and_part_order (l : Listing) (parts parts2 : List String)
    (hp : parts.Perm parts2) :
    PropertyIdentity.computePropertyIdentity l = PropertyIdentity.computePropertyIdentity l ∧
    FuzzyMatcher.computeFuzzyIdentity l = FuzzyMatcher.computeFuzzyIdentity l ∧
    FuzzyMatcher.partsHash parts = FuzzyMatcher.partsHash parts2 := by
  refine ⟨rfl, rfl, ?_⟩
  unfold FuzzyMatcher.partsHash
  have s1 : List.Sorted FuzzyMatcher.strLe (parts.insertionSort FuzzyMatcher.strLe) :=
    List.sorted_insertionSort _ _
  have s2 : List.Sorted FuzzyMatcher.strLe (parts2.insertionSort FuzzyMatcher.strLe) :=
    List.sorted_insertionSort _ _
  have hsort : parts.insertionSort FuzzyMatcher.strLe = parts2.insertionSort FuzzyMatcher.strLe :=
    List.eq_of_perm_of_sorted
      ((List.perm_insertionSort _ _).trans (hp.trans (List.perm_insertionSort _ _).symm)) s1 s2
  rw [hsort]

/-- C2 witness: the part-order invariance at a concrete permutation. -/
theorem c2_identity_determinism_and_part_order_witness :
    (["b", "a"] : List String).Perm ["a", "b"] ∧
      FuzzyMatcher.partsHash ["b", "a"] = FuzzyMatcher.partsHash ["a", "b"] :=
  ⟨by decide,
   (c2_identity_determinism_and_part_order listingFooBar ["b", "a"] ["a", "b"] (by decide)).2.2⟩

theorem firstM_mem {α β : Type} {f : α → Option β} : ∀ {l : List α} {x : β},
    l.firstM f = some x → ∃ a ∈ l, f a = some x := by
  intro l
  induction l with
  | nil => intro x h; simp [List.firstM] at h
  | cons a as ih =>
    intro x h
    rw [show List.firstM f (a :: as) = (f a <|> List.firstM f as) from rfl] at h
    rcases hfa : f a with _ | b
    · rw [hfa] at h
      simp only [Option.none_orElse] at h
      obtain ⟨c, hc, hfc⟩ := ih h
      exact ⟨c, List.mem_cons_of_mem a hc, hfc⟩
    · rw [hfa] at h
      simp only [Option.some_orElse] at h
      exact ⟨a, List.mem_cons_self a as, by rw [hfa, h]⟩

theorem digit_not_space {c : Char} (h : Js.isDigit c = true) : Js.isSpace c = false := by
  unfold Js.isDigit at h
  simp only [Bool.and_eq_true, decide_eq_true_eq] at h
  obtain ⟨h1, h2⟩ := h
  unfold Js.isSpace
  simp only [Bool.or_eq_false_iff, decide_eq_false_iff_not]
  refine ⟨⟨⟨?_, ?_⟩, ?_⟩, ?_⟩ <;> rintro rfl <;> revert h1 <;> decide

theorem zipTryHere_len {s : List Char} {p : List Char × List Char}
    (h : FuzzyMatcher.zipTryHere s = some p) : p.1.length = 5 := by
  unfold FuzzyMatcher.zipTryHere at h
  obtain ⟨pre, _, hf⟩ := firstM_mem h
  simp only at hf
  split_ifs at hf with h1 h2
  rw [Bool.and_eq_true, decide_eq_true_eq] at h2
  revert hf
  split
  · intro hf
    obtain rfl := (Option.some_inj.mp hf).symm
    exact h2.1
  · intro hf
    split_ifs at hf
    obtain rfl := (Option.some_inj.mp hf).symm
    exact h2.1

theorem zipScanTail_len : ∀ {s : List Char} {p : List Char × List Char},
    FuzzyMatcher.zipScanTail s = some p → p.1.length = 5 := by
  intro s
  induction s with
  | nil => intro p h; simp [FuzzyMatcher.zipScanTail] at h
  | cons c rest ih =>
    intro p h
    rw [FuzzyMatcher.zipScanTail] at h
    rcases hc : FuzzyMatcher.isSpaceComma c with _ | _
    · rw [hc] at h
      simp only [Bool.false_eq_true, if_false, Option.orElse] at h
      exact ih h
    · rw [hc] at h
      simp only [if_true] at h
      rcases hz : FuzzyMatcher.zipTryHere rest with _ | q
      · rw [hz] at h
        simp only [Option.map_none', Option.orElse] at h
        exact ih h
      · rw [hz] at h
        simp only [Option.map_some', Option.orElse] at h
        obtain rfl := (Option.some_inj.mp h).symm
        have := zipTryHere_len hz
        exact this

theorem zipMatch_len {s : List Char} {p : List Char × List Char}
    (h : FuzzyMatcher.zipMatch s = some p) : p.1.length = 5 := by
  unfold FuzzyMatcher.zipMatch at h
  rcases hz : FuzzyMatcher.zipTryHere s with _ | q
  · rw [hz] at h
    simp only [Option.orElse] at h
    exact zipScanTail_len h
  · rw [hz] at h
    simp only [Option.orElse] at h
    obtain rfl := (Option.some_inj.mp h).symm
    exact zipTryHere_len hz

theorem extractZipCode_truthy {a : Option String} {z : String}
    (h : FuzzyMatcher.extractZipCode a = some z) : strTruthy (some z) = true := by
  unfold FuzzyMatcher.extractZipCode at h
  split_ifs at h
  rcases hz : FuzzyMatcher.zipMatch (a.getD "").data with _ | p
  · rw [hz] at h; simp at h
  · rw [hz] at h
    simp only [Option.map_some', Option.some_inj] at h
    have hlen := zipMatch_len hz
    subst h
    simp only [strTruthy, ne_eq, decide_eq_true_eq]
    intro hcon
    have : p.1 = [] := congrArg String.data hcon
    rw [this] at hlen
    simp at hlen

theorem takeWhile_head_digit {s : List Char} (hne : (s.takeWhile Js.isDigit).isEmpty = false) :
    ∃ c ∈ s.takeWhile Js.isDigit, Js.isDigit c = true := by
  rcases hds : s.takeWhile Js.isDigit with _ | ⟨d, ds⟩
  · rw [hds] at hne; simp at hne
  · refine ⟨d, by simp, ?_⟩
    have hm : d ∈ s.takeWhile Js.isDigit := by rw [hds]; simp
    exact List.mem_takeWhile_imp hm

theorem hnTryHere_digit {s : List Char} {p : List Char × List Char}
    (h : FuzzyMatcher.hnTryHere s = some p) : ∃ c ∈ p.1, Js.isDigit c = true := by
  unfold FuzzyMatcher.hnTryHere at h
  simp only at h
  split_ifs at h with hds
  obtain ⟨la, _, hla⟩ := firstM_mem h
  obtain ⟨ra, _, hra⟩ := firstM_mem hla
  obtain ⟨d, hdm, hdd⟩ := takeWhile_head_digit (by simpa using hds)
  revert hra
  split
  · intro hra
    obtain rfl := (Option.some_inj.mp hra).symm
    exact ⟨d, by simp [List.mem_append, hdm], hdd⟩
  · intro hra
    split_ifs at hra
    obtain rfl := (Option.some_inj.mp hra).symm
    exact ⟨d, by simp [List.mem_append, hdm], hdd⟩

theorem hnScan_digit : ∀ {s : List Char} {p : List Char × List Char},
    FuzzyMatcher.hnScan s = some p → ∃ c ∈ p.1, Js.isDigit c = true := by
  intro s
  induction s with
  | nil => intro p h; simp [FuzzyMatcher.hnScan] at h
  | cons c rest ih =>
    intro p h
    rw [FuzzyMatcher.hnScan] at h
    rcases hc : Js.isSpace c with _ | _
    · rw [hc] at h
      simp only [Bool.false_eq_true, if_false, Option.orElse] at h
      exact ih h
    · rw [hc] at h
      simp only [if_true] at h
      rcases hz : FuzzyMatcher.hnTryHere rest with _ | q
      · rw [hz] at h
        simp only [Option.map_none', Option.orElse] at h
        exact ih h
      · rw [hz] at h
        simp only [Option.map_some', Option.orElse] at h
        obtain rfl := (Option.some_inj.mp h).symm
        have := hnTryHere_digit hz
        exact this

theorem extractHouseNumber_truthy {a : Option String} {z : String}
    (h : FuzzyMatcher.extractHouseNumber a = some z) : strTruthy (some z) = true := by
  unfold FuzzyMatcher.extractHouseNumber at h
  split_ifs at h
  rcases hz : FuzzyMatcher.hnScan (a.getD "").data with _ | p
  · rw [hz] at h; simp at h
  · rw [hz] at h
    simp only [Option.map_some', Option.some_inj] at h
    obtain ⟨d, hdm, hdd⟩ := hnScan_digit hz
    subst h
    simp only [strTruthy, ne_eq, decide_eq_true_eq]
    intro hcon
    have hdata : Js.toLower (p.1.filter (fun c => ¬Js.isSpace c)) = [] :=
      congrArg String.data hcon
    have hfil : p.1.filter (fun c => ¬Js.isSpace c) = [] := by
      unfold Js.toLower at hdata
      exact List.map_eq_nil.mp hdata
    have hmem : d ∈ p.1.filter (fun c => ¬Js.isSpace c) := by
      rw [List.mem_filter]
      refine ⟨hdm, ?_⟩
      simp [digit_not_space hdd]
    rw [hfil] at hmem
    simp at hmem

theorem sizesMatch_spec {v1 v2 : FieldVal} {s1 s2 : ℚ}
    (e1 : FuzzyMatcher.parseSize v1 = some s1) (e2 : FuzzyMatcher.parseSize v2 = some s2)
    (p1 : 0 < s1) (p2 : 0 < s2) :
    FuzzyMatcher.sizesMatch v1 v2 = !decide (relDiff s1 s2 > 1 / 20) := by
  unfold FuzzyMatcher.sizesMatch
  rw [e1, e2]
  have havg : ¬((s1 + s2) / 2 = 0) := by positivity
  simp only [havg, if_false, relDiff]
  rw [← decide_not]
  simp [not_lt]

theorem pricesMatch_spec {v1 v2 : FieldVal} {s1 s2 : ℚ}
    (e1 : FuzzyMatcher.parsePrice v1 = some s1) (e2 : FuzzyMatcher.parsePrice v2 = some s2)
    (p1 : 0 < s1) (p2 : 0 < s2) :
    FuzzyMatcher.pricesMatch v1 v2 = !decide (relDiff s1 s2 > 1 / 20) := by
  unfold FuzzyMatcher.pricesMatch
  rw [e1, e2]
  have havg : ¬((s1 + s2) / 2 = 0) := by positivity
  simp only [havg, if_false, relDiff]
  rw [← decide_not]
  simp [not_lt]

theorem ite_cond_not_true {α : Type} {a b : α} : (if ¬(true = true) then a else b) = b := by simp

theorem ite_cond_not_false {α : Type} {a b : α} : (if ¬(false = true) then a else b) = a := by simp

theorem ite_cond_true {α : Type} {a b : α} : (if (true = true) then a else b) = a := by simp

theorem ite_cond_false {α : Type} {a b : α} : (if (false = true) then a else b) = b := by simp

theorem geo_eq (hav : ℚ → ℚ → ℚ → ℚ → ℚ) (l1 l2 : Listing) :
    (if specBothGeo l1 l2 = true then
       if specDist hav l1 l2 ≤ 30 then true
       else if specDist hav l1 l2 > 200 then false
       else specFuzzyEqual l1 l2
     else specFuzzyEqual l1 l2) =
    (if (specBothGeo l1 l2 && decide (specDist hav l1 l2 > 200)) = true then false
     else if (specBothGeo l1 l2 && decide (specDist hav l1 l2 ≤ 30)) = true then true
     else specFuzzyEqual l1 l2) := by
  by_cases hg : specBothGeo l1 l2 = true
  · rw [if_pos hg, hg]
    simp only [Bool.true_and]
    by_cases h30 : specDist hav l1 l2 ≤ 30
    · rw [if_pos h30, decide_eq_true h30,
        decide_eq_false (by linarith : ¬specDist hav l1 l2 > 200)]
      simp
    · rw [if_neg h30, decide_eq_false h30]
      by_cases h200 : specDist hav l1 l2 > 200
      · rw [if_pos h200, decide_eq_true h200]
        simp
      · rw [if_neg h200, decide_eq_false h200]
        simp
  · rw [if_neg hg]
    have hgf : specBothGeo l1 l2 = false := by simpa using hg
    rw [hgf]
    simp

theorem hn_eq (hav : ℚ → ℚ → ℚ → ℚ → ℚ) (l1 l2 : Listing) :
    (if (strTruthy (FuzzyMatcher.extractHouseNumber l1.address) &&
          strTruthy (FuzzyMatcher.extractHouseNumber l2.address) &&
          decide (FuzzyMatcher.extractHouseNumber l1.address ≠
            FuzzyMatcher.extractHouseNumber l2.address)) = true then false
     else
       if specBothGeo l1 l2 = true then
         if specDist hav l1 l2 ≤ 30 then true
         else if specDist hav l1 l2 > 200 then false
         else specFuzzyEqual l1 l2
       else specFuzzyEqual l1 l2) =
    (if (specHnConflict l1 l2 || (specBothGeo l1 l2 && decide (specDist hav l1 l2 > 200))) = true
       then false
     else if (specBothGeo l1 l2 && decide (specDist hav l1 l2 ≤ 30)) = true then true
     else specFuzzyEqual l1 l2) := by
  rcases hh1 : FuzzyMatcher.extractHouseNumber l1.address with _ | n1
  · have hc : specHnConflict l1 l2 = false := by simp [specHnConflict, hh1]
    rw [hc]
    simp only [strTruthy, Bool.false_and, ite_cond_false, Bool.false_or]
    exact geo_eq hav l1 l2
  rcases hh2 : FuzzyMatcher.extractHouseNumber l2.address with _ | n2
  · have hc : specHnConflict l1 l2 = false := by simp [specHnConflict, hh1, hh2]
    rw [hc]
    simp only [strTruthy, Bool.false_and, Bool.and_false, ite_cond_false, Bool.false_or]
    exact geo_eq hav l1 l2
  by_cases hne : n1 = n2
  · subst hne
    have hd : decide ((some n1 : Option String) ≠ some n1) = false :=
      decide_eq_false (fun hcon => hcon rfl)
    have hc : specHnConflict l1 l2 = false := by simp [specHnConflict, hh1, hh2]
    rw [hd, hc]
    simp only [Bool.and_false, ite_cond_false, Bool.false_or]
    exact geo_eq hav l1 l2
  · have ht1 := extractHouseNumber_truthy hh1
    have ht2 := extractHouseNumber_truthy hh2
    have hd : decide ((some n1 : Option String) ≠ some n2) = true :=
      decide_eq_true (fun hcon => hne (Option.some_inj.mp hcon))
    have hc : specHnConflict l1 l2 = true := by simp [specHnConflict, hh1, hh2, hne]
    rw [ht1, ht2, hd, hc]
    simp

theorem zip_eq (hav : ℚ → ℚ → ℚ → ℚ → ℚ) (l1 l2 : Listing) :
    FuzzyMatcher.couldBeSamePropertyTail hav l1 l2 =
    (if (specZipConflict l1 l2 || specHnConflict l1 l2 ||
        (specBothGeo l1 l2 && decide (specDist hav l1 l2 > 200))) = true then false
     else if (specBothGeo l1 l2 && decide (specDist hav l1 l2 ≤ 30)) = true then true
     else specFuzzyEqual l1 l2) := by
  simp only [FuzzyMatcher.couldBeSamePropertyTail]
  rcases hz1 : FuzzyMatcher.extractZipCode l1.address with _ | z1
  · have hc : specZipConflict l1 l2 = false := by simp [specZipConflict, hz1]
    rw [hc]
    simp only [strTruthy, Bool.false_and, ite_cond_false, Bool.false_or]
    exact hn_eq hav l1 l2
  rcases hz2 : FuzzyMatcher.extractZipCode l2.address with _ | z2
  · have hc : specZipConflict l1 l2 = false := by simp [specZipConflict, hz1, hz2]
    rw [hc]
    simp only [strTruthy, Bool.false_and, Bool.and_false, ite_cond_false, Bool.false_or]
    exact hn_eq hav l1 l2
  by_cases hze : z1 = z2
  · subst hze
    have hd : decide ((some z1 : Option String) ≠ some z1) = false :=
      decide_eq_false (fun hcon => hcon rfl)
    have hc : specZipConflict l1 l2 = false := by simp [specZipConflict, hz1, hz2]
    rw [hd, hc]
    simp only [Bool.and_false, ite_cond_false, Bool.false_or]
    exact hn_eq hav l1 l2
  · have ht1 := extractZipCode_truthy hz1
    have ht2 := extractZipCode_truthy hz2
    have hd : decide ((some z1 : Option String) ≠ some z2) = true :=
      decide_eq_true (fun hcon => hze (Option.some_inj.mp hcon))
    have hc : specZipConflict l1 l2 = true := by simp [specZipConflict, hz1, hz2, hze]
    rw [ht1, ht2, hd, hc]
    simp

theorem couldBe_eq_spec (hav : ℚ → ℚ → ℚ → ℚ → ℚ) (l1 l2 : Listing)
    (hp1 : posParsed l1 = true) (hp2 : posParsed l2 = true) :
    FuzzyMatcher.couldBeSameProperty hav l1 l2 = specSameProperty hav l1 l2 := by
  unfold posParsed at hp1 hp2
  rw [Bool.and_eq_true] at hp1 hp2
  obtain ⟨hp1s, hp1p⟩ := hp1
  obtain ⟨hp2s, hp2p⟩ := hp2
  simp only [FuzzyMatcher.couldBeSameProperty, specSameProperty]
  by_cases hH : (strTruthy l1.hash && strTruthy l2.hash && decide (l1.hash = l2.hash)) = true
  · rw [if_pos hH, if_pos hH]
  rw [if_neg hH, if_neg hH]
  rcases hs1 : FuzzyMatcher.parseSize l1.size with _ | s1 <;>
    rcases hs2 : FuzzyMatcher.parseSize l2.size with _ | s2
  · have hsr : specSizeReject l1 l2 = true := by simp [specSizeReject, hs1]
    have hsm : FuzzyMatcher.sizesMatch l1.size l2.size = false := by
      simp [FuzzyMatcher.sizesMatch, hs1]
    rw [hsr, hsm]
    simp
  · have hsr : specSizeReject l1 l2 = true := by simp [specSizeReject, hs1]
    have hsm : FuzzyMatcher.sizesMatch l1.size l2.size = false := by
      simp [FuzzyMatcher.sizesMatch, hs1]
    rw [hsr, hsm]
    simp
  · have hsr : specSizeReject l1 l2 = true := by simp [specSizeReject, hs1, hs2]
    have hsm : FuzzyMatcher.sizesMatch l1.size l2.size = false := by
      simp [FuzzyMatcher.sizesMatch, hs1, hs2]
    rw [hsr, hsm]
    simp
  rw [hs1] at hp1s
  rw [hs2] at hp2s
  simp only [decide_eq_true_eq] at hp1s hp2s
  have hsm := sizesMatch_spec hs1 hs2 hp1s hp2s
  have hsr : specSizeReject l1 l2 = decide (relDiff s1 s2 > 1 / 20) := by
    simp [specSizeReject, hs1, hs2]
  by_cases hszr : relDiff s1 s2 > 1 / 20
  · rw [hsm, hsr, decide_eq_true hszr]
    simp
  rw [hsm, hsr, decide_eq_false hszr]
  simp only [Bool.not_false, ite_cond_not_true, Bool.false_or]
  by_cases hr1 : l1.rooms = FieldVal.fvNull
  · have hrr : specRoomReject l1 l2 = true := by simp [specRoomReject, hr1]
    rw [hrr,
      if_neg (fun hc => hc.1 hr1 : ¬(l1.rooms ≠ FieldVal.fvNull ∧ l2.rooms ≠ FieldVal.fvNull))]
    simp
  by_cases hr2 : l2.rooms = FieldVal.fvNull
  · have hrr : specRoomReject l1 l2 = true := by simp [specRoomReject, hr2]
    rw [hrr,
      if_neg (fun hc => hc.2 hr2 : ¬(l1.rooms ≠ FieldVal.fvNull ∧ l2.rooms ≠ FieldVal.fvNull))]
    simp
  by_cases hre : l1.rooms = l2.rooms
  case neg =>
    have hrr : specRoomReject l1 l2 = true := by simp [specRoomReject, hre]
    rw [hrr, if_pos (⟨hr1, hr2⟩ : l1.rooms ≠ FieldVal.fvNull ∧ l2.rooms ≠ FieldVal.fvNull),
      if_pos (hre : l1.rooms ≠ l2.rooms)]
    simp
  have hrr : specRoomReject l1 l2 = false := by simp [specRoomReject, hr1, hr2, hre]
  rw [hrr, if_pos (⟨hr1, hr2⟩ : l1.rooms ≠ FieldVal.fvNull ∧ l2.rooms ≠ FieldVal.fvNull),
    if_neg (fun hne => hne hre : ¬l1.rooms ≠ l2.rooms)]
  simp only [Bool.false_or]
  rcases hq1 : FuzzyMatcher.parsePrice l1.price with _ | p1 <;>
    rcases hq2 : FuzzyMatcher.parsePrice l2.price with _ | p2
  · have hpr : specPriceReject l1 l2 = true := by simp [specPriceReject, hq1]
    have hpm : FuzzyMatcher.pricesMatch l1.price l2.price = false := by
      simp [FuzzyMatcher.pricesMatch, hq1]
    rw [hpr, hpm]
    simp
  · have hpr : specPriceReject l1 l2 = true := by simp [specPriceReject, hq1]
    have hpm : FuzzyMatcher.pricesMatch l1.price l2.price = false := by
      simp [FuzzyMatcher.pricesMatch, hq1]
    rw [hpr, hpm]
    simp
  · have hpr : specPriceReject l1 l2 = true := by simp [specPriceReject, hq1, hq2]
    have hpm : FuzzyMatcher.pricesMatch l1.price l2.price = false := by
      simp [FuzzyMatcher.pricesMatch, hq1, hq2]
    rw [hpr, hpm]
    simp
  rw [hq1] at hp1p
  rw [hq2] at hp2p
  simp only [decide_eq_true_eq] at hp1p hp2p
  have hpm := pricesMatch_spec hq1 hq2 hp1p hp2p
  have hpr : specPriceReject l1 l2 = decide (relDiff p1 p2 > 1 / 20) := by
    simp [specPriceReject, hq1, hq2]
  by_cases hprr : relDiff p1 p2 > 1 / 20
  · rw [hpm, hpr, decide_eq_true hprr]
    simp
  rw [hpm, hpr, decide_eq_false hprr]
  simp only [Bool.not_false, ite_cond_not_true, Bool.false_or]
  exact zip_eq hav l1 l2

/-- C5: under positive parsed sizes and prices (true of genuine listing
data; the JS code meets non-positive values only through number-typed
fields), `couldBeSameProperty` computes exactly the decision the claim
describes: a shared non-empty hash accepts immediately; a size mismatch
(over 5% relative difference or an unknown size), a room mismatch (unknown
or differing room counts), a price mismatch, a ZIP conflict, a house-number
conflict, or coordinates over 200 m apart reject; both coordinates within
30 m accept; otherwise fuzzy-identity equality decides. -/
theorem c5_could_be_same_property_spec (hav : ℚ → ℚ → ℚ → ℚ → ℚ) (l1 l2 : Listing)
    (hp1 : posParsed l1 = true) (hp2 : posParsed l2 = true) :
    FuzzyMatcher.couldBeSameProperty hav l1 l2 = specSameProperty hav l1 l2 :=
  couldBe_eq_spec hav l1 l2 hp1 hp2

/-- C5 witness: the equivalence at a concrete pair of listings. -/
theorem c5_could_be_same_property_spec_witness :
    posParsed listingStreetZip = true ∧ posParsed listingZipStreet = true ∧
      FuzzyMatcher.couldBeSameProperty havZero listingStreetZip listingZipStreet =
        specSameProperty havZero listingStreetZip listingZipStreet :=
  ⟨by with_unfolding_all decide, by with_unfolding_all decide,
   c5_could_be_same_property_spec havZero listingStreetZip listingZipStreet
     (by with_unfolding_all decide) (by with_unfolding_all decide)⟩

theorem truthy_ne_comm (z1 z2 : Option String) :
    (strTruthy z1 && strTruthy z2 && decide (z1 ≠ z2)) =
      (strTruthy z2 && strTruthy z1 && decide (z2 ≠ z1)) := by
  have hd : decide (z1 ≠ z2) = decide (z2 ≠ z1) := by simp [ne_comm]
  rw [hd]
  cases strTruthy z1 <;> cases strTruthy z2 <;> simp

theorem sizesMatch_comm (a b : FieldVal) :
    FuzzyMatcher.sizesMatch a b = FuzzyMatcher.sizesMatch b a := by
  unfold FuzzyMatcher.sizesMatch
  rcases h1 : FuzzyMatcher.parseSize a with _ | s1 <;>
    rcases h2 : FuzzyMatcher.parseSize b with _ | s2
  · rfl
  · rfl
  · rfl
  · show (if (s1 + s2) / 2 = 0 then false else decide (|s1 - s2| / ((s1 + s2) / 2) ≤ 1 / 20)) =
      (if (s2 + s1) / 2 = 0 then false else decide (|s2 - s1| / ((s2 + s1) / 2) ≤ 1 / 20))
    rw [add_comm s2 s1, abs_sub_comm s2 s1]

theorem pricesMatch_comm (a b : FieldVal) :
    FuzzyMatcher.pricesMatch a b = FuzzyMatcher.pricesMatch b a := by
  unfold FuzzyMatcher.pricesMatch
  rcases h1 : FuzzyMatcher.parsePrice a with _ | s1 <;>
    rcases h2 : FuzzyMatcher.parsePrice b with _ | s2
  · rfl
  · rfl
  · rfl
  · show (if (s1 + s2) / 2 = 0 then false else decide (|s1 - s2| / ((s1 + s2) / 2) ≤ 1 / 20)) =
      (if (s2 + s1) / 2 = 0 then false else decide (|s2 - s1| / ((s2 + s1) / 2) ≤ 1 / 20))
    rw [add_comm s2 s1, abs_sub_comm s2 s1]

theorem fuzzyIdsEqual_comm (l1 l2 : Listing) :
    FuzzyMatcher.fuzzyIdentitiesEqual l1 l2 = FuzzyMatcher.fuzzyIdentitiesEqual l2 l1 := by
  unfold FuzzyMatcher.fuzzyIdentitiesEqual
  rcases h1 : FuzzyMatcher.computeFuzzyIdentity l1 with _ | i1 <;>
    rcases h2 : FuzzyMatcher.computeFuzzyIdentity l2 with _ | i2
  · rfl
  · rfl
  · rfl
  · simp [eq_comm]

theorem tail_comm (hav : ℚ → ℚ → ℚ → ℚ → ℚ)
    (hsym : ∀ a b c d, hav a b c d = hav c d a b) (l1 l2 : Listing) :
    FuzzyMatcher.couldBeSamePropertyTail hav l1 l2 =
      FuzzyMatcher.couldBeSamePropertyTail hav l2 l1 := by
  simp only [FuzzyMatcher.couldBeSamePropertyTail]
  rw [truthy_ne_comm (FuzzyMatcher.extractZipCode l1.address)
      (FuzzyMatcher.extractZipCode l2.address),
    truthy_ne_comm (FuzzyMatcher.extractHouseNumber l1.address)
      (FuzzyMatcher.extractHouseNumber l2.address),
    hsym (FuzzyMatcher.numOf l1.latitude) (FuzzyMatcher.numOf l1.longitude)
      (FuzzyMatcher.numOf l2.latitude) (FuzzyMatcher.numOf l2.longitude),
    Bool.and_comm (FuzzyMatcher.hasValidCoordinates l1.latitude l1.longitude)
      (FuzzyMatcher.hasValidCoordinates l2.latitude l2.longitude),
    fuzzyIdsEqual_comm l1 l2]

/-- C10: `couldBeSameProperty` is symmetric, granted that the Haversine
distance core it calls is itself symmetric under swapping the two points
(true of the mathematical Haversine formula). -/
theorem c10_could_be_same_property_symm (hav : ℚ → ℚ → ℚ → ℚ → ℚ)
    (hsym : ∀ a b c d, hav a b c d = hav c d a b) (l1 l2 : Listing) :
    FuzzyMatcher.couldBeSameProperty hav l1 l2 = FuzzyMatcher.couldBeSameProperty hav l2 l1 := by
  simp only [FuzzyMatcher.couldBeSameProperty]
  have hdec : decide (l1.hash = l2.hash) = decide (l2.hash = l1.hash) :=
    decide_eq_decide.mpr ⟨Eq.symm, Eq.symm⟩
  have hhash : (strTruthy l1.hash && strTruthy l2.hash && decide (l1.hash = l2.hash)) =
      (strTruthy l2.hash && strTruthy l1.hash && decide (l2.hash = l1.hash)) := by
    rw [hdec]
    cases strTruthy l1.hash <;> cases strTruthy l2.hash <;> simp
  rw [hhash, sizesMatch_comm l1.size l2.size, pricesMatch_comm l1.price l2.price,
    tail_comm hav hsym l1 l2]
  by_cases hrn : l2.rooms ≠ FieldVal.fvNull ∧ l1.rooms ≠ FieldVal.fvNull
  · rw [if_pos (⟨hrn.2, hrn.1⟩ : l1.rooms ≠ FieldVal.fvNull ∧ l2.rooms ≠ FieldVal.fvNull),
      if_pos hrn]
    by_cases hrne : l1.rooms = l2.rooms
    · rw [if_neg (fun k => k hrne : ¬l1.rooms ≠ l2.rooms),
        if_neg (fun k => k hrne.symm : ¬l2.rooms ≠ l1.rooms)]
    · rw [if_pos (hrne : l1.rooms ≠ l2.rooms),
        if_pos (fun k => hrne k.symm : l2.rooms ≠ l1.rooms)]
  · rw [if_neg
      (fun k => hrn ⟨k.2, k.1⟩ : ¬(l1.rooms ≠ FieldVal.fvNull ∧ l2.rooms ≠ FieldVal.fvNull)),
      if_neg hrn]

/-- C10 witness: symmetry at a concrete pair of listings. -/
theorem c10_could_be_same_property_symm_witness :
    FuzzyMatcher.couldBeSameProperty havZero listingStreetZip listingZipStreet =
      FuzzyMatcher.couldBeSameProperty havZero listingZipStreet listingStreetZip :=
  c10_could_be_same_property_symm havZero (fun _ _ _ _ => rfl) listingStreetZip listingZipStreet

theorem selectCandidate_some {hav : ℚ → ℚ → ℚ → ℚ → ℚ} {target : Listing} {minScore : ℤ}
    {c : Listing} {e : Scorer.MatchEntry} :
    Scorer.selectCandidate hav target minScore c = some e ↔
      ¬(c.id = target.id ∨ c.hash = target.hash) ∧
        minScore ≤ (Scorer.computeSimilarity hav target c).score ∧
        e = { listing := c, similarity := Scorer.computeSimilarity hav target c } := by
  unfold Scorer.selectCandidate
  split_ifs with h1 h2
  · simp [h1]
  · simp only [Option.some_inj]
    constructor
    · intro he
      exact ⟨h1, h2, he.symm⟩
    · intro ⟨_, _, he⟩
      exact he.symm
  · simp only [ge_iff_le, not_le] at h2
    constructor
    · intro hcon
      exact absurd hcon (by simp)
    · intro ⟨_, hsc, _⟩
      exact absurd hsc (not_le.mpr h2)

/-- C7: every entry of `findSimilarListings` is a non-self candidate whose
similarity result reaches `minScore`; the output is sorted descending by
score and holds at most `maxResults` entries; and when everything fits
(`candidates.length ≤ maxResults`) every qualifying candidate appears. -/
theorem c7_find_similar_listings (hav : ℚ → ℚ → ℚ → ℚ → ℚ) (target : Listing)
    (candidates : List Listing) (minScore : ℤ) (maxResults : ℕ) :
    (∀ e ∈ Scorer.findSimilarListings hav target candidates minScore maxResults,
        e.listing ∈ candidates ∧
          ¬(e.listing.id = target.id ∨ e.listing.hash = target.hash) ∧
          e.similarity = Scorer.computeSimilarity hav target e.listing ∧
          minScore ≤ e.similarity.score) ∧
      List.Sorted Scorer.scoreGe
        (Scorer.findSimilarListings hav target candidates minScore maxResults) ∧
      (Scorer.findSimilarListings hav target candidates minScore maxResults).length ≤
        maxResults ∧
      (candidates.length ≤ maxResults →
        ∀ c ∈ candidates, ¬(c.id = target.id ∨ c.hash = target.hash) →
          minScore ≤ (Scorer.computeSimilarity hav target c).score →
          ∃ e ∈ Scorer.findSimilarListings hav target candidates minScore maxResults,
            e.listing = c) := by
  simp only [Scorer.findSimilarListings]
  refine ⟨?_, ?_, ?_, ?_⟩
  · intro e he
    have h1 : e ∈ (candidates.filterMap
        (Scorer.selectCandidate hav target minScore)).insertionSort Scorer.scoreGe :=
      List.mem_of_mem_take he
    have h2 : e ∈ candidates.filterMap (Scorer.selectCandidate hav target minScore) :=
      (List.perm_insertionSort _ _).mem_iff.mp h1
    obtain ⟨c, hc, hfc⟩ := List.mem_filterMap.mp h2
    obtain ⟨hself, hsc, he⟩ := selectCandidate_some.mp hfc
    subst he
    exact ⟨hc, hself, rfl, hsc⟩
  · exact List.Pairwise.sublist (List.take_sublist _ _) (List.sorted_insertionSort _ _)
  · rw [List.length_take]
    exact min_le_left _ _
  · intro hle c hc hself hsc
    have hfc : Scorer.selectCandidate hav target minScore c =
        some { listing := c, similarity := Scorer.computeSimilarity hav target c } :=
      selectCandidate_some.mpr ⟨hself, hsc, rfl⟩
    have hmem : ({ listing := c, similarity := Scorer.computeSimilarity hav target c } :
        Scorer.MatchEntry) ∈
        candidates.filterMap (Scorer.selectCandidate hav target minScore) :=
      List.mem_filterMap.mpr ⟨c, hc, hfc⟩
    have hlen : (candidates.filterMap (Scorer.selectCandidate hav target minScore)).length ≤
        maxResults :=
      le_trans (List.length_filterMap_le _ _) hle
    have hsortlen : ((candidates.filterMap
        (Scorer.selectCandidate hav target minScore)).insertionSort Scorer.scoreGe).length =
        (candidates.filterMap (Scorer.selectCandidate hav target minScore)).length :=
      (List.perm_insertionSort _ _).length_eq
    rw [List.take_of_length_le (by rw [hsortlen]; exact hlen)]
    exact ⟨_, (List.perm_insertionSort _ _).mem_iff.mpr hmem, rfl⟩

/-- C7 witness: with one qualifying candidate and room for ten results, the
candidate appears in the output. -/
theorem c7_find_similar_listings_witness :
    ([c7Cand].length ≤ 10) ∧ (c7Cand ∈ [c7Cand]) ∧
      ¬(c7Cand.id = c7Target.id ∨ c7Cand.hash = c7Target.hash) ∧
      (0 : ℤ) ≤ (Scorer.computeSimilarity havZero c7Target c7Cand).score ∧
      ∃ e ∈ Scorer.findSimilarListings havZero c7Target [c7Cand] 0 10, e.listing = c7Cand :=
  ⟨by decide, by decide, by decide, by with_unfolding_all decide,
   (c7_find_similar_listings havZero c7Target [c7Cand] 0 10).2.2.2 (by decide) c7Cand
     (by decide) (by decide) (by with_unfolding_all decide)⟩

/-- C8 counterexample: removing a manual link whose listings do not exist
in the store returns success:false and leaves the store unchanged, but
carries no error field (the result is `{success:false, removed:false}`),
against the claimed `{success:false, error}` shape. -/
theorem c8_remove_missing_counterexample :
    (ManualLinks.removeManualLink emptyStore "1" "2").1.success = false ∧
      (ManualLinks.removeManualLink emptyStore "1" "2").1.error = none ∧
      (ManualLinks.removeManualLink emptyStore "1" "2").1.removed = some false ∧
      (ManualLinks.removeManualLink emptyStore "1" "2").2 = emptyStore := by
  refine ⟨?_, ?_, ?_, ?_⟩ <;> decide

/-- C8 amended: with non-empty distinct ids of which at least one resolves
to no stored listing, both operations return a structured success:false
result and leave the store untouched (nothing throws); the create result
carries an error message, while the remove result reports
`removed := false` and no error. -/
theorem c8_missing_listing_behavior (s : Store) (id1 id2 : String) (userId : Option String)
    (linkId : String) (now : ℤ)
    (hne : ¬(id1 = "" ∨ id2 = "")) (hid : id1 ≠ id2)
    (hmiss : ManualLinks.getListingByIdOrHash s id1 = none ∨
      ManualLinks.getListingByIdOrHash s id2 = none) :
    ((ManualLinks.createManualLink s id1 id2 userId linkId now).1.success = false ∧
      (ManualLinks.createManualLink s id1 id2 userId linkId now).1.error =
        some "One or both listings not found" ∧
      (ManualLinks.createManualLink s id1 id2 userId linkId now).2 = s) ∧
    ((ManualLinks.removeManualLink s id1 id2).1.success = false ∧
      (ManualLinks.removeManualLink s id1 id2).1.error = none ∧
      (ManualLinks.removeManualLink s id1 id2).2 = s) := by
  unfold ManualLinks.createManualLink ManualLinks.removeManualLink
  rw [if_neg hne, if_neg hid, if_neg hne]
  rcases hm : ManualLinks.getListingByIdOrHash s id1 with _ | l1
  · exact ⟨⟨rfl, rfl, rfl⟩, rfl, rfl, rfl⟩
  · rcases hmiss with hm2 | hm2
    · rw [hm] at hm2
      exact absurd hm2 (by simp)
    · rw [hm2]
      exact ⟨⟨rfl, rfl, rfl⟩, rfl, rfl, rfl⟩

/-- C8 witness: the amended behavior on the empty store. -/
theorem c8_missing_listing_behavior_witness :
    (¬(("1" : String) = "" ∨ ("2" : String) = "")) ∧ ("1" : String) ≠ "2" ∧
      (ManualLinks.getListingByIdOrHash emptyStore "1" = none ∨
        ManualLinks.getListingByIdOrHash emptyStore "2" = none) ∧
      (ManualLinks.createManualLink emptyStore "1" "2" none "L1" 0).1.success = false ∧
      (ManualLinks.createManualLink emptyStore "1" "2" none "L1" 0).2 = emptyStore :=
  ⟨by decide, by decide, Or.inl (by decide),
   ((c8_missing_listing_behavior emptyStore "1" "2" none "L1" 0 (by decide) (by decide)
      (Or.inl (by decide))).1).1,
   ((c8_missing_listing_behavior emptyStore "1" "2" none "L1" 0 (by decide) (by decide)
      (Or.inl (by decide))).1).2.2⟩

theorem find_isNone_not_mem {ph : List PriceEntry} {d : ℤ}
    (h : (ph.find? (fun e => e.date = d)).isNone = true) : d ∉ datesOf ph := by
  intro hd
  obtain ⟨e, he, hde⟩ := List.mem_map.mp hd
  rw [Option.isNone_iff_eq_none, List.find?_eq_none] at h
  have := h e he
  simp only [decide_eq_true_eq] at this
  exact this hde

theorem uniqueDates_append {ph : List PriceEntry} {d : ℤ} {p : FieldVal}
    (hu : uniqueDates ph) (hd : d ∉ datesOf ph) :
    uniqueDates (ph ++ [{ date := d, price := p }]) := by
  unfold uniqueDates datesOf at *
  rw [List.map_append, List.nodup_append]
  refine ⟨hu, by simp, ?_⟩
  intro a ha hb
  simp only [List.map_cons, List.map_nil, List.mem_singleton] at hb
  subst hb
  exact hd ha

theorem sortedDates_insertionSort (ph : List PriceEntry) :
    sortedDates (ph.insertionSort VersionDetector.dateLe) := by
  unfold sortedDates datesOf
  exact List.Pairwise.map _ (fun a b h => h)
    (List.sorted_insertionSort VersionDetector.dateLe ph)

theorem uniqueDates_insertionSort {ph : List PriceEntry} (hu : uniqueDates ph) :
    uniqueDates (ph.insertionSort VersionDetector.dateLe) := by
  unfold uniqueDates datesOf at *
  exact (List.Perm.nodup_iff ((List.perm_insertionSort _ _).map _)).mpr hu

theorem uniqueDates_guardStep (ph : List PriceEntry) (po : Option ℚ) (dOpt : Option ℤ)
    (hu : uniqueDates ph) :
    uniqueDates (match po with
      | some p =>
        if intTruthy dOpt ∧ (ph.find? (fun e => e.date = dOpt.getD 0)).isNone then
          ph ++ [{ date := dOpt.getD 0, price := .fvNum p }]
        else ph
      | none => ph) := by
  rcases po with _ | p
  · exact hu
  · split_ifs with h
    · exact uniqueDates_append hu (find_isNone_not_mem h.2)
    · exact hu

theorem mergePriceHistory_unique (ph : List PriceEntry) (e : Option ℤ) (p : FieldVal)
    (now : ℤ) (c : Option ℚ) (g : Bool)
    (hu : uniqueDates ph) (hnow : now ∉ datesOf ph) (hne : intTruthy e → e.getD 0 ≠ now) :
    uniqueDates (VersionDetector.mergePriceHistory ph e p now c g) := by
  have key : ∀ ph' : List PriceEntry, uniqueDates ph' → now ∉ datesOf ph' →
      uniqueDates (if g ∧ c = none then ph'
        else ph' ++ [{ date := now, price := VersionDetector.fvOfOpt c }]) := by
    intro ph' hu' hn'
    split_ifs
    · exact hu'
    · exact uniqueDates_append hu' hn'
  unfold VersionDetector.mergePriceHistory
  apply uniqueDates_insertionSort
  apply key
  · split_ifs with h1 h2
    · exact uniqueDates_append hu (find_isNone_not_mem h2)
    · exact hu
    · exact hu
  · split_ifs with h1 h2
    · unfold datesOf
      rw [List.map_append, List.mem_append]
      rintro (hmem | heq)
      · exact hnow hmem
      · simp only [List.map_cons, List.map_nil, List.mem_singleton] at heq
        exact hne h1.1 heq.symm
    · exact hnow
    · exact hnow

theorem mergedManualHistory_unique (newer older : DbListing)
    (hu : uniqueDates ((newer.changeSet.getD {}).priceHistory.getD [])) :
    uniqueDates (ManualLinks.mergedManualHistory newer older) := by
  unfold ManualLinks.mergedManualHistory
  apply uniqueDates_insertionSort
  exact uniqueDates_guardStep _ _ _ (uniqueDates_guardStep _ _ _ hu)

/-- C9 counterexample: linking a listing to a predecessor created in the
very millisecond of the link (`now = existing.created_at`) writes a price
history with two entries of the same date. -/
theorem c9_duplicate_date_counterexample :
    datesOf ((cexLinkOut.changeSet.getD {}).priceHistory.getD []) = [77, 77] ∧
      ¬uniqueDates ((cexLinkOut.changeSet.getD {}).priceHistory.getD []) := by
  constructor
  · with_unfolding_all decide
  · with_unfolding_all decide

/-- C9 amended: every version-link merge writes a date-ascending history;
dates stay duplicate-free in the automatic merge only when the written date
`now` collides neither with an input entry nor with the predecessor's
stored date, while the manual-link merge (`updatePriceHistory`) preserves
date uniqueness unconditionally; `linkListingToExisting` writes exactly the
shared merge of its inputs. -/
theorem c9_price_history_dates (ph : List PriceEntry) (e : Option ℤ) (p : FieldVal)
    (now : ℤ) (c : Option ℚ) (g : Bool) (l : Listing) (ex : DbListing)
    (newer older : DbListing) :
    sortedDates (VersionDetector.mergePriceHistory ph e p now c g) ∧
      (uniqueDates ph → now ∉ datesOf ph → (intTruthy e → e.getD 0 ≠ now) →
        uniqueDates (VersionDetector.mergePriceHistory ph e p now c g)) ∧
      ((VersionDetector.linkListingToExisting l ex now).changeSet.getD {}).priceHistory =
        some (VersionDetector.mergePriceHistory ((l.changeSet.getD {}).priceHistory.getD [])
          ex.createdAt ex.price now (VersionDetector.parsePrice l.price) true) ∧
      sortedDates (ManualLinks.mergedManualHistory newer older) ∧
      (uniqueDates ((newer.changeSet.getD {}).priceHistory.getD []) →
        uniqueDates (ManualLinks.mergedManualHistory newer older)) :=
  ⟨sortedDates_insertionSort _,
   fun hu hnow hne => mergePriceHistory_unique ph e p now c g hu hnow hne,
   rfl,
   sortedDates_insertionSort _,
   fun hu => mergedManualHistory_unique newer older hu⟩

/-- C9 witness: the no-collision uniqueness at concrete inputs. -/
theorem c9_price_history_dates_witness :
    uniqueDates ([] : List PriceEntry) ∧ (77 : ℤ) ∉ datesOf [] ∧
      (intTruthy (some 50) → (some (50 : ℤ)).getD 0 ≠ 77) ∧
      uniqueDates (VersionDetector.mergePriceHistory [] (some 50) (.fvNum 100) 77
        (some 120) true) :=
  ⟨by decide, by decide, by decide,
   (c9_price_history_dates [] (some 50) (.fvNum 100) 77 (some 120) true
      cexLinkListing cexLinkExisting cexLinkExisting cexLinkExisting).2.1
     (by decide) (by decide) (by decide)⟩

theorem updateAt_length {α : Type} (i : ℕ) (f : α → α) :
    ∀ l : List α, (VersionDetector.updateAt i f l).length = l.length := by
  intro l
  induction l generalizing i with
  | nil => cases i <;> rfl
  | cons x xs ih =>
    cases i with
    | zero => rfl
    | succ n =>
      show (x :: VersionDetector.updateAt n f xs).length = (x :: xs).length
      simp [ih]

theorem updateAt_getD_ne {α : Type} (d : α) (f : α → α) :
    ∀ (l : List α) (i j : ℕ), i ≠ j →
      (VersionDetector.updateAt i f l).getD j d = l.getD j d := by
  intro l
  induction l with
  | nil => intro i j _; cases i <;> rfl
  | cons x xs ih =>
    intro i j h
    cases i with
    | zero =>
      cases j with
      | zero => exact absurd rfl h
      | succ j => rfl
    | succ i =>
      cases j with
      | zero => rfl
      | succ j =>
        show (VersionDetector.updateAt i f xs).getD j d = xs.getD j d
        exact ih i j (fun hc => h (by rw [hc]))

theorem updateAt_getD_eq {α : Type} (d : α) (f : α → α) :
    ∀ (l : List α) (j : ℕ), j < l.length →
      (VersionDetector.updateAt j f l).getD j d = f (l.getD j d) := by
  intro l
  induction l with
  | nil => intro j h; simp at h
  | cons x xs ih =>
    intro j h
    cases j with
    | zero => rfl
    | succ j =>
      show (VersionDetector.updateAt j f xs).getD j d = f (xs.getD j d)
      exact ih j (by simpa using h)

theorem foldl_updateAt_length {α : Type} (idx : ℕ → ℕ) (g : ℕ → α → α) :
    ∀ (steps : List ℕ) (arr : List α),
      (steps.foldl (fun a i => VersionDetector.updateAt (idx i) (g i) a) arr).length =
        arr.length := by
  intro steps
  induction steps with
  | nil => intro arr; rfl
  | cons t ts ih =>
    intro arr
    rw [List.foldl_cons, ih, updateAt_length]

theorem foldl_updateAt_untouched {α : Type} (d : α) (idx : ℕ → ℕ) (g : ℕ → α → α) (j : ℕ) :
    ∀ (n : ℕ) (arr : List α), (∀ t, t < n → idx t ≠ j) →
      (((List.range n).foldl (fun a i => VersionDetector.updateAt (idx i) (g i) a) arr).getD
        j d) = arr.getD j d := by
  intro n
  induction n with
  | zero => intro arr _; rfl
  | succ n ih =>
    intro arr h
    rw [List.range_succ, List.foldl_append, List.foldl_cons, List.foldl_nil,
      updateAt_getD_ne d (g n) _ _ _ (h n (Nat.lt_succ_self n))]
    exact ih arr (fun t ht => h t (Nat.lt_succ_of_lt ht))

theorem foldl_updateAt_touched {α : Type} (d : α) (idx : ℕ → ℕ) (g : ℕ → α → α) (t0 : ℕ) :
    ∀ (n : ℕ) (arr : List α), t0 < n → (∀ t, t < n → t ≠ t0 → idx t ≠ idx t0) →
      idx t0 < arr.length →
      (((List.range n).foldl (fun a i => VersionDetector.updateAt (idx i) (g i) a) arr).getD
        (idx t0) d) = g t0 (arr.getD (idx t0) d) := by
  intro n
  induction n with
  | zero => intro arr h; omega
  | succ n ih =>
    intro arr ht0 hinj hlen
    rw [List.range_succ, List.foldl_append, List.foldl_cons, List.foldl_nil]
    by_cases he : t0 = n
    · subst he
      rw [updateAt_getD_eq d (g t0) _ _
        (by rw [foldl_updateAt_length]; exact hlen)]
      rw [foldl_updateAt_untouched d idx g (idx t0) t0 arr
        (fun t htl => hinj t (Nat.lt_succ_of_lt htl) (Nat.ne_of_lt htl))]
    · have ht0' : t0 < n := by omega
      rw [updateAt_getD_ne d (g n) _ _ _
        (hinj n (Nat.lt_succ_self n) (fun hc => he hc.symm))]
      exact ih arr ht0' (fun t h1 h2 => hinj t (Nat.lt_succ_of_lt h1) h2) hlen

theorem getD_default_irrel {α : Type} :
    ∀ (l : List α) (n : ℕ) (d1 d2 : α), n < l.length → l.getD n d1 = l.getD n d2 := by
  intro l
  induction l with
  | nil => intro n d1 d2 h; simp at h
  | cons x xs ih =>
    intro n d1 d2 h
    cases n with
    | zero => rfl
    | succ n =>
      show xs.getD n d1 = xs.getD n d2
      exact ih n d1 d2 (by simpa using h)

theorem getLastD_eq_getD {α : Type} :
    ∀ (l : List α) (d : α), l ≠ [] → l.getLastD d = l.getD (l.length - 1) d := by
  intro l
  induction l with
  | nil => intro d h; exact absurd rfl h
  | cons x xs ih =>
    intro d _
    rcases hxs : xs with _ | ⟨y, ys⟩
    · rfl
    · subst hxs
      have hne : (y :: ys : List α) ≠ [] := List.cons_ne_nil y ys
      have h1 : (x :: y :: ys).getLastD d = (y :: ys).getLastD x := rfl
      rw [h1, ih x hne]
      have h2 : (x :: y :: ys).length - 1 = ((y :: ys).length - 1) + 1 := by simp
      rw [h2]
      show (y :: ys).getD ((y :: ys).length - 1) x = (y :: ys).getD ((y :: ys).length - 1) d
      exact getD_default_irrel _ _ x d (by simp)

theorem groupIdx_nodup (ids : List (Option String)) (k : String) :
    (VersionDetector.groupIdx ids k).Nodup :=
  List.Nodup.filter _ (List.nodup_range _)

theorem groupIdx_lt (ids : List (Option String)) (k : String) :
    ∀ j ∈ VersionDetector.groupIdx ids k, j < ids.length := by
  intro j hj
  unfold VersionDetector.groupIdx at hj
  exact List.mem_range.mp (List.mem_of_mem_filter hj)

theorem chainOrder_sorted (ls1 : List Listing) (k : String) :
    List.Sorted (VersionDetector.pubDesc (fun j => jsOrZero ((ls1.getD j {}).publishedAt)))
      (VersionDetector.chainOrder ls1 k) :=
  List.sorted_insertionSort _ _

theorem chainOrder_perm (ls1 : List Listing) (k : String) :
    (VersionDetector.chainOrder ls1 k).Perm
      (VersionDetector.groupIdx (ls1.map (·.fuzzyIdentity)) k) :=
  List.perm_insertionSort _ _

theorem chainOrder_nodup (ls1 : List Listing) (k : String) :
    (VersionDetector.chainOrder ls1 k).Nodup :=
  (List.Perm.nodup_iff (chainOrder_perm ls1 k)).mpr (groupIdx_nodup _ _)

theorem chainOrder_lt (ls1 : List Listing) (k : String) :
    ∀ j ∈ VersionDetector.chainOrder ls1 k, j < ls1.length := by
  intro j hj
  have h := groupIdx_lt (ls1.map (·.fuzzyIdentity)) k j ((chainOrder_perm ls1 k).subset hj)
  simpa using h

theorem chainOrder_getD_mem (ls1 : List Listing) (k : String) {t : ℕ}
    (ht : t < (VersionDetector.chainOrder ls1 k).length) :
    (VersionDetector.chainOrder ls1 k).getD t 0 ∈ VersionDetector.chainOrder ls1 k := by
  rw [List.getD_eq_get _ _ ht]
  exact List.get_mem _ _ _

theorem chainOrder_getD_inj (ls1 : List Listing) (k : String) {t1 t2 : ℕ}
    (h1 : t1 < (VersionDetector.chainOrder ls1 k).length)
    (h2 : t2 < (VersionDetector.chainOrder ls1 k).length) (hne : t1 ≠ t2) :
    (VersionDetector.chainOrder ls1 k).getD t1 0 ≠
      (VersionDetector.chainOrder ls1 k).getD t2 0 := by
  intro hc
  rw [List.getD_eq_get _ _ h1, List.getD_eq_get _ _ h2] at hc
  have h := (List.Nodup.get_inj_iff (chainOrder_nodup ls1 k)).mp hc
  exact hne (by simpa using congrArg Fin.val h)

theorem batchMarkedArr_length (ls1 : List Listing) (k : String) (arr : List Listing) :
    (VersionDetector.batchMarkedArr ls1 k arr).length = arr.length := by
  unfold VersionDetector.batchMarkedArr
  exact foldl_updateAt_length _ _ _ _

theorem batchMarkedArr_touched (ls1 : List Listing) (k : String) (arr : List Listing)
    (t : ℕ) (ht : t + 1 < (VersionDetector.chainOrder ls1 k).length)
    (harr : arr.length = ls1.length) :
    (VersionDetector.batchMarkedArr ls1 k arr).getD
        ((VersionDetector.chainOrder ls1 k).getD t 0) {} =
      { arr.getD ((VersionDetector.chainOrder ls1 k).getD t 0) {} with
          batchPreviousHash :=
            (ls1.getD ((VersionDetector.chainOrder ls1 k).getD (t + 1) 0) {}).id } := by
  unfold VersionDetector.batchMarkedArr
  exact foldl_updateAt_touched {} (fun i => (VersionDetector.chainOrder ls1 k).getD i 0)
    (fun i l => { l with batchPreviousHash :=
      (ls1.getD ((VersionDetector.chainOrder ls1 k).getD (i + 1) 0) {}).id })
    t ((VersionDetector.chainOrder ls1 k).length - 1) arr
    (by omega)
    (fun t2 h2 hne2 => chainOrder_getD_inj ls1 k (by omega) (by omega) hne2)
    (by rw [harr]; exact chainOrder_lt ls1 k _ (chainOrder_getD_mem ls1 k (by omega)))

theorem batchMarkedArr_untouched (ls1 : List Listing) (k : String) (arr : List Listing)
    (j : ℕ) (hj : ∀ t, t < (VersionDetector.chainOrder ls1 k).length - 1 →
      (VersionDetector.chainOrder ls1 k).getD t 0 ≠ j) :
    (VersionDetector.batchMarkedArr ls1 k arr).getD j {} = arr.getD j {} := by
  unfold VersionDetector.batchMarkedArr
  exact foldl_updateAt_untouched {} (fun i => (VersionDetector.chainOrder ls1 k).getD i 0)
    (fun i l => { l with batchPreviousHash :=
      (ls1.getD ((VersionDetector.chainOrder ls1 k).getD (i + 1) 0) {}).id })
    j ((VersionDetector.chainOrder ls1 k).length - 1) arr hj

theorem processGroup_big (ls1 : List Listing) (k : String) (now : ℤ) (arr : List Listing)
    (s : Store)
    (hlen2 : 2 ≤ (VersionDetector.groupIdx (ls1.map (·.fuzzyIdentity)) k).length) :
    VersionDetector.processGroup ls1 now (arr, s) k =
      (match findByFuzzyIdentity s k with
       | some m =>
         (VersionDetector.updateAt ((VersionDetector.chainOrder ls1 k).getLastD 0)
            (fun l => VersionDetector.linkListingToExisting l m now)
            (VersionDetector.batchMarkedArr ls1 k arr),
          markListingAsSuperseded s m.dbId)
       | none => (VersionDetector.batchMarkedArr ls1 k arr, s)) := by
  unfold VersionDetector.processGroup
  rcases hidx : VersionDetector.groupIdx (ls1.map (·.fuzzyIdentity)) k with _ | ⟨a, _ | ⟨b, rest⟩⟩
  · rw [hidx] at hlen2
    simp at hlen2
  · rw [hidx] at hlen2
    simp at hlen2
  · rw [hidx]

/-- C6: in a fuzzy-identity group of size over 1 the chain order sorts the
group's batch indices descending by `publishedAt || 0` (a permutation of the
group); each non-oldest chain member gets `_batchPreviousHash` set to its
immediate successor's `id` (the provider hash); only the oldest member is
linked — with a stored match it becomes `linkListingToExisting` of that
match (which is marked superseded), otherwise it stays untouched.  On the
concrete scenario-B batch `[100, 300, 200]` the chain is `[300, 200, 100]`
with markers h300→h200 and h200→h100 and the oldest linking to the stored
row `db9`. -/
theorem c6_batch_awareness (ls1 : List Listing) (k : String) (now : ℤ)
    (arr : List Listing) (s : Store)
    (hlen2 : 2 ≤ (VersionDetector.groupIdx (ls1.map (·.fuzzyIdentity)) k).length)
    (harr : arr.length = ls1.length) :
    (List.Sorted (VersionDetector.pubDesc (fun j => jsOrZero ((ls1.getD j {}).publishedAt)))
        (VersionDetector.chainOrder ls1 k) ∧
      (VersionDetector.chainOrder ls1 k).Perm
        (VersionDetector.groupIdx (ls1.map (·.fuzzyIdentity)) k)) ∧
    (∀ t, t + 1 < (VersionDetector.chainOrder ls1 k).length →
      (VersionDetector.processGroup ls1 now (arr, s) k).1.getD
          ((VersionDetector.chainOrder ls1 k).getD t 0) {} =
        { arr.getD ((VersionDetector.chainOrder ls1 k).getD t 0) {} with
            batchPreviousHash :=
              (ls1.getD ((VersionDetector.chainOrder ls1 k).getD (t + 1) 0) {}).id }) ∧
    (∀ m, findByFuzzyIdentity s k = some m →
      (VersionDetector.processGroup ls1 now (arr, s) k).1.getD
          ((VersionDetector.chainOrder ls1 k).getLastD 0) {} =
        VersionDetector.linkListingToExisting
          (arr.getD ((VersionDetector.chainOrder ls1 k).getLastD 0) {}) m now ∧
      (VersionDetector.processGroup ls1 now (arr, s) k).2 =
        markListingAsSuperseded s m.dbId) ∧
    (findByFuzzyIdentity s k = none →
      (VersionDetector.processGroup ls1 now (arr, s) k).1.getD
          ((VersionDetector.chainOrder ls1 k).getLastD 0) {} =
        arr.getD ((VersionDetector.chainOrder ls1 k).getLastD 0) {} ∧
      (VersionDetector.processGroup ls1 now (arr, s) k).2 = s) ∧
    (scenarioOut.1.map (·.publishedAt) = [some 100, some 300, some 200] ∧
      scenarioOut.1.map (·.batchPreviousHash) = [none, some "h200", some "h100"] ∧
      scenarioOut.1.map (·.previousVersionId) = [some "db9", none, none] ∧
      scenarioOut.2.listings.map (fun r => (r.dbId, r.isSuperseded)) = [("db9", true)]) := by
  have hlen2so : 2 ≤ (VersionDetector.chainOrder ls1 k).length := by
    rw [(chainOrder_perm ls1 k).length_eq]
    exact hlen2
  have hnil : VersionDetector.chainOrder ls1 k ≠ [] := by
    intro hc
    rw [hc] at hlen2so
    simp at hlen2so
  have hlast : (VersionDetector.chainOrder ls1 k).getLastD 0 =
      (VersionDetector.chainOrder ls1 k).getD
        ((VersionDetector.chainOrder ls1 k).length - 1) 0 :=
    getLastD_eq_getD _ 0 hnil
  rw [processGroup_big ls1 k now arr s hlen2]
  refine ⟨⟨chainOrder_sorted ls1 k, chainOrder_perm ls1 k⟩, ?_, ?_, ?_, ?_⟩
  · intro t ht
    rcases hdb : findByFuzzyIdentity s k with _ | m
    · exact batchMarkedArr_touched ls1 k arr t ht harr
    · have hne2 : (VersionDetector.chainOrder ls1 k).getLastD 0 ≠
          (VersionDetector.chainOrder ls1 k).getD t 0 := by
        rw [hlast]
        exact chainOrder_getD_inj ls1 k (by omega) (by omega) (by omega)
      have h1 := updateAt_getD_ne ({} : Listing)
        (fun l => VersionDetector.linkListingToExisting l m now)
        (VersionDetector.batchMarkedArr ls1 k arr)
        ((VersionDetector.chainOrder ls1 k).getLastD 0)
        ((VersionDetector.chainOrder ls1 k).getD t 0) hne2
      exact h1.trans (batchMarkedArr_touched ls1 k arr t ht harr)
  · intro m hdb
    rw [hdb]
    constructor
    · have hb : ((VersionDetector.chainOrder ls1 k).getLastD 0) <
          (VersionDetector.batchMarkedArr ls1 k arr).length := by
        rw [batchMarkedArr_length, harr, hlast]
        exact chainOrder_lt ls1 k _ (chainOrder_getD_mem ls1 k (by omega))
      have h1 := updateAt_getD_eq ({} : Listing)
        (fun l => VersionDetector.linkListingToExisting l m now)
        (VersionDetector.batchMarkedArr ls1 k arr)
        ((VersionDetector.chainOrder ls1 k).getLastD 0) hb
      have h2 : (VersionDetector.batchMarkedArr ls1 k arr).getD
          ((VersionDetector.chainOrder ls1 k).getLastD 0) {} =
          arr.getD ((VersionDetector.chainOrder ls1 k).getLastD 0) {} := by
        apply batchMarkedArr_untouched
        intro t2 h2t
        rw [hlast]
        exact chainOrder_getD_inj ls1 k (by omega) (by omega) (by omega)
      exact h1.trans
        (congrArg (fun x => VersionDetector.linkListingToExisting x m now) h2)
    · rfl
  · intro hdb
    rw [hdb]
    constructor
    · apply batchMarkedArr_untouched
      intro t2 h2t
      rw [hlast]
      exact chainOrder_getD_inj ls1 k (by omega) (by omega) (by omega)
    · rfl
  · exact ⟨by with_unfolding_all decide, by with_unfolding_all decide,
      by with_unfolding_all decide, by with_unfolding_all decide⟩

/-- C6 witness: the chain-order permutation on a concrete two-listing
group. -/
theorem c6_batch_awareness_witness :
    2 ≤ (VersionDetector.groupIdx (c6L.map (·.fuzzyIdentity)) "k").length ∧
      (VersionDetector.chainOrder c6L "k").Perm
        (VersionDetector.groupIdx (c6L.map (·.fuzzyIdentity)) "k") :=
  ⟨by decide,
   (c6_batch_awareness c6L "k" 0 c6L emptyStore (by decide) rfl).1.2⟩

theorem flagsOf_mark (s : Store) (id : String) (hid : id ≠ "") :
    flagsOf (markListingAsSuperseded s id) =
      (flagsOf s).map (fun p => if p.1 = id then (p.1, true) else p) := by
  unfold markListingAsSuperseded flagsOf
  rw [if_neg hid]
  simp only [List.map_map]
  apply List.map_congr_left
  intro r _
  by_cases h : r.dbId = id <;> simp [h]

theorem flagsOf_clear (s : Store) (id : String) :
    flagsOf (clearSuperseded s id) =
      (flagsOf s).map (fun p => if p.1 = id then (p.1, false) else p) := by
  unfold clearSuperseded flagsOf
  simp only [List.map_map]
  apply List.map_congr_left
  intro r _
  by_cases h : r.dbId = id <;> simp [h]

theorem flagsOf_setChangeSet (s : Store) (id : String) (cs : ChangeSet) :
    flagsOf (setChangeSet s id cs) = flagsOf s := by
  unfold setChangeSet flagsOf
  simp only [List.map_map]
  apply List.map_congr_left
  intro r _
  by_cases h : r.dbId = id <;> simp [h]

theorem flagsOf_updatePH (s : Store) (newer older : DbListing) :
    flagsOf (ManualLinks.updatePriceHistory s newer older) = flagsOf s := by
  unfold ManualLinks.updatePriceHistory
  exact flagsOf_setChangeSet _ _ _

theorem flagsOf_updatePH_fold (fh : DbListing) :
    ∀ (chain : List DbListing) (s : Store),
      flagsOf (chain.foldl (fun s cl =>
          if cl.dbId ≠ fh.dbId then ManualLinks.updatePriceHistory s fh cl else s) s) =
        flagsOf s := by
  intro chain
  induction chain with
  | nil => intro s; rfl
  | cons cl cls ih =>
    intro s
    rw [List.foldl_cons, ih]
    split_ifs
    · exact flagsOf_updatePH _ _ _
    · rfl

theorem flagsOf_phMatch (s2 : Store) (hid : String) (chain : List DbListing) :
    flagsOf (match ManualLinks.queryListingById s2 hid with
      | some fh => chain.foldl (fun s cl =>
          if cl.dbId ≠ fh.dbId then ManualLinks.updatePriceHistory s fh cl else s) s2
      | none => s2) = flagsOf s2 := by
  rcases ManualLinks.queryListingById s2 hid with _ | fh
  · rfl
  · exact flagsOf_updatePH_fold fh chain s2

theorem flagsOf_mark_fold (hid : String) :
    ∀ (chain : List DbListing) (s : Store), (∀ cl ∈ chain, cl.dbId ≠ "") →
      flagsOf (chain.foldl (fun s cl =>
          if cl.dbId ≠ hid then markListingAsSuperseded s cl.dbId else s) s) =
        (flagsOf s).map (fun p =>
          if p.1 ≠ hid ∧ p.1 ∈ chain.map (·.dbId) then (p.1, true) else p) := by
  intro chain
  induction chain with
  | nil =>
    intro s _
    simp
  | cons cl cls ih =>
    intro s hids
    rw [List.foldl_cons]
    by_cases hcl : cl.dbId = hid
    · rw [if_neg (fun hcc => hcc hcl)]
      rw [ih s (fun c hc => hids c (List.mem_cons_of_mem cl hc))]
      apply List.map_congr_left
      intro p _
      by_cases h1 : p.1 = hid
      · simp [h1]
      · simp [h1, hcl]
    · rw [if_pos hcl]
      rw [ih (markListingAsSuperseded s cl.dbId) (fun c hc => hids c (List.mem_cons_of_mem cl hc))]
      rw [flagsOf_mark s cl.dbId (hids cl (List.mem_cons_self cl cls))]
      rw [List.map_map]
      apply List.map_congr_left
      intro p _
      simp only [Function.comp]
      by_cases h1 : p.1 = cl.dbId
      · simp [h1, hcl]
      · simp [h1]

theorem flagsOf_supersedeChain (s : Store) (head : DbListing) (chain : List DbListing)
    (hids : ∀ cl ∈ chain, cl.dbId ≠ "") :
    flagsOf (ManualLinks.supersedeChain s head chain) =
      (flagsOf s).map (fun p =>
        if p.1 = head.dbId then (p.1, false)
        else if p.1 ∈ chain.map (·.dbId) then (p.1, true) else p) := by
  have h1 := flagsOf_phMatch
    (clearSuperseded (chain.foldl (fun s cl =>
      if cl.dbId ≠ head.dbId then markListingAsSuperseded s cl.dbId else s) s) head.dbId)
    head.dbId chain
  refine h1.trans ?_
  rw [flagsOf_clear, flagsOf_mark_fold head.dbId chain s hids, List.map_map]
  apply List.map_congr_left
  intro p _
  simp only [Function.comp]
  by_cases hh : p.1 = head.dbId
  · simp [hh]
  · by_cases hm : p.1 ∈ chain.map (·.dbId)
    · simp [hh, hm]
    · simp [hh, hm]

theorem bfsLoop_sound (s : Store) (excl : Option String) (start : String) :
    ∀ (fuel : ℕ) (queue visited : List String),
      (∀ q ∈ queue, chainConn s start q) → (∀ v ∈ visited, chainConn s start v) →
      ∀ x ∈ ManualLinks.bfsLoop s excl fuel queue visited, chainConn s start x := by
  intro fuel
  induction fuel with
  | zero => intro queue visited _ hv x hx; exact hv x hx
  | succ fuel ih =>
    intro queue visited hq hv x hx
    rcases queue with _ | ⟨cur, rest⟩
    · exact hv x hx
    · simp only [ManualLinks.bfsLoop] at hx
      split_ifs at hx with hc
      · exact ih rest visited (fun q hqm => hq q (List.mem_cons_of_mem cur hqm)) hv x hx
      · refine ih _ _ ?_ ?_ x hx
        · intro q hqm
          rcases List.mem_append.mp hqm with hql | hqr
          · exact hq q (List.mem_cons_of_mem cur hql)
          · have hnb : q ∈ ManualLinks.neighbors s cur := List.mem_of_mem_filter hqr
            exact Relation.ReflTransGen.tail (hq cur (List.mem_cons_self cur rest)) hnb
        · intro v hvm
          rcases List.mem_append.mp hvm with hvl | hvr
          · exact hv v hvl
          · rw [List.mem_singleton] at hvr
            subst hvr
            exact hq v (List.mem_cons_self v rest)

theorem chainIds_sound (s : Store) (start : String) (excl : Option String) :
    ∀ x ∈ ManualLinks.chainIds s start excl, chainConn s start x := by
  intro x hx
  unfold ManualLinks.chainIds at hx
  refine bfsLoop_sound s excl start _ [start] [] ?_ ?_ x hx
  · intro q hq
    rw [List.mem_singleton] at hq
    subst hq
    exact Relation.ReflTransGen.refl
  · intro v hv
    simp at hv

theorem pick_fold_mem :
    ∀ (l : List DbListing) (b : DbListing),
      l.foldl (fun best x => if jsDate x > jsDate best then x else best) b ∈ b :: l := by
  intro l
  induction l with
  | nil => intro b; simp
  | cons y ys ih =>
    intro b
    rw [List.foldl_cons]
    rcases List.mem_cons.mp (ih (if jsDate y > jsDate b then y else b)) with h | h
    · rw [h]
      split_ifs
      · exact List.mem_cons_of_mem b (List.mem_cons_self y ys)
      · exact List.mem_cons_self b (y :: ys)
    · exact List.mem_cons_of_mem b (List.mem_cons_of_mem y h)

theorem pick_fold_ge :
    ∀ (l : List DbListing) (b : DbListing),
      jsDate b ≤ jsDate (l.foldl (fun best x => if jsDate x > jsDate best then x else best) b) ∧
      ∀ x ∈ l, jsDate x ≤
        jsDate (l.foldl (fun best x => if jsDate x > jsDate best then x else best) b) := by
  intro l
  induction l with
  | nil => intro b; exact ⟨le_refl _, by simp⟩
  | cons y ys ih =>
    intro b
    rw [List.foldl_cons]
    obtain ⟨ih1, ih2⟩ := ih (if jsDate y > jsDate b then y else b)
    have hb : jsDate b ≤ jsDate (if jsDate y > jsDate b then y else b) := by
      split_ifs with h
      · exact le_of_lt h
      · exact le_refl _
    have hy : jsDate y ≤ jsDate (if jsDate y > jsDate b then y else b) := by
      split_ifs with h
      · exact le_refl _
      · exact le_of_not_lt h
    refine ⟨le_trans hb ih1, ?_⟩
    intro x hx
    rcases List.mem_cons.mp hx with h | h
    · subst h
      exact le_trans hy ih1
    · exact ih2 x h

theorem findChainHead_spec (s : Store) (startId : String) (head : DbListing)
    (chain : List DbListing)
    (hfind : ManualLinks.findChainHead s startId = (some head, chain)) :
    head ∈ chain ∧ (∀ cl ∈ chain, jsDate cl ≤ jsDate head) ∧
      ∀ cl ∈ chain, chainConn s startId cl.dbId := by
  simp only [ManualLinks.findChainHead] at hfind
  rcases hall : s.listings.filter
      (fun r => (ManualLinks.chainIds s startId none).contains r.dbId) with _ | ⟨h0, tail⟩
  · rw [hall] at hfind
    simp at hfind
  · rw [hall] at hfind
    rw [Prod.mk.injEq, Option.some_inj] at hfind
    obtain ⟨hh, hc⟩ := hfind
    have hmem0 : head ∈ h0 :: (h0 :: tail) := by
      rw [← hh]
      exact pick_fold_mem (h0 :: tail) h0
    have hhead : head ∈ h0 :: tail := by
      rcases List.mem_cons.mp hmem0 with h | h
      · rw [h]; exact List.mem_cons_self h0 tail
      · exact h
    refine ⟨hc ▸ hhead, ?_, ?_⟩
    · intro cl hcl
      rw [← hc] at hcl
      obtain ⟨hge1, hge2⟩ := pick_fold_ge (h0 :: tail) h0
      rw [← hh]
      exact hge2 cl hcl
    · intro cl hcl
      rw [← hc] at hcl
      have hclf : cl ∈ s.listings.filter
          (fun r => (ManualLinks.chainIds s startId none).contains r.dbId) := by
        rw [hall]
        exact hcl
      have hpred := List.of_mem_filter hclf
      have hmem : cl.dbId ∈ ManualLinks.chainIds s startId none := by simpa using hpred
      exact chainIds_sound s startId none cl.dbId hmem

/-- C1 counterexample: removing the manual link between "2" and "1" in a
store where "2" also carries an automatic version link to "1" reports
success but leaves BOTH rows unsuperseded while they stay connected through
`previousVersionId` — two unsuperseded listings in one connected
component. -/
theorem c1_chain_invariant_counterexample :
    cexRemoveOut.1.success = true ∧
      chainConn cexRemoveOut.2 "1" "2" ∧
      (cexRemoveOut.2.listings.filter (fun r => !r.isSuperseded)).map (·.dbId) =
        ["1", "2"] := by
  refine ⟨by with_unfolding_all decide, Relation.ReflTransGen.single ?_,
    by with_unfolding_all decide⟩
  show ("2" : String) ∈ ManualLinks.neighbors cexRemoveOut.2 "1"
  with_unfolding_all decide

/-- C1 amended: the invariant the create path actually maintains, stated
over the chain walk it performs: every walked member is connected to the
start in the version graph, the picked head carries the maximal
`publishedAt ?? createdAt` date of the walk, and the superseding phase
leaves exactly the head unsuperseded among the walked rows (rows outside
the walk keep their flags).  The original per-component claim fails for
`removeManualLink` (see the counterexample). -/
theorem c1_chain_invariant_amended (s : Store) (startId : String) (head : DbListing)
    (chain : List DbListing)
    (hfind : ManualLinks.findChainHead s startId = (some head, chain))
    (hids : ∀ cl ∈ chain, cl.dbId ≠ "") :
    head ∈ chain ∧
      (∀ cl ∈ chain, jsDate cl ≤ jsDate head) ∧
      (∀ cl ∈ chain, chainConn s startId cl.dbId) ∧
      flagsOf (ManualLinks.supersedeChain s head chain) =
        (flagsOf s).map (fun p =>
          if p.1 = head.dbId then (p.1, false)
          else if p.1 ∈ chain.map (·.dbId) then (p.1, true) else p) :=
  ⟨(findChainHead_spec s startId head chain hfind).1,
   (findChainHead_spec s startId head chain hfind).2.1,
   (findChainHead_spec s startId head chain hfind).2.2,
   flagsOf_supersedeChain s head chain hids⟩

/-- C1 witness: the amended invariant at the concrete two-listing store. -/
theorem c1_chain_invariant_amended_witness :
    ManualLinks.findChainHead cexRemoveStore "1" = (some cexRow2, [cexRow1, cexRow2]) ∧
      (∀ cl ∈ [cexRow1, cexRow2], cl.dbId ≠ "") ∧
      cexRow2 ∈ [cexRow1, cexRow2] ∧
      flagsOf (ManualLinks.supersedeChain cexRemoveStore cexRow2 [cexRow1, cexRow2]) =
        (flagsOf cexRemoveStore).map (fun p =>
          if p.1 = cexRow2.dbId then (p.1, false)
          else if p.1 ∈ [cexRow1, cexRow2].map (·.dbId) then (p.1, true) else p) :=
  ⟨by with_unfolding_all decide, by decide,
   (c1_chain_invariant_amended cexRemoveStore "1" cexRow2 [cexRow1, cexRow2]
      (by with_unfolding_all decide) (by decide)).1,
   (c1_chain_invariant_amended cexRemoveStore "1" cexRow2 [cexRow1, cexRow2]
      (by with_unfolding_all decide) (by decide)).2.2.2⟩

end Fredy
